/-
Verification of the session state machine of the ComparePlus Notepad++ plugin
(src/src/Compare.cpp): the marker history stack (DeletedSectionsList), the
alignment engine (alignDiffs / isAlignmentNeeded), the incremental update
scheduler (DelayedUpdate / onSciModifiedUpdate), the compare orchestration
(compare / addComparePair) and pair restoration (ComparedPair::restoreFiles).

The embedding models a Scintilla document's per-line marker bitsets as a
`List Nat` (index = line, value = marker mask bits) and the per-line
"changed" indicator as a `List Bool`.  Scintilla calls that only read or
write these structures are modelled directly; host quantities that the code
merely reads (current time, viewport lines, visible-line translation) are
passed as explicit parameters.
-/
import Mathlib

namespace ComparePlus

/-! ### Bit-mask helpers

`clearBits m mask` removes from `m` every bit of `mask`; it models deleting a
set of Scintilla markers from a line (the effect of `SCI_MARKERDELETE` on all
plugin markers). -/

def clearBits (m mask : Nat) : Nat := m ^^^ (m &&& mask)

theorem clearBits_testBit (m mask i : Nat) :
    (clearBits m mask).testBit i = (m.testBit i && !(mask.testBit i)) := by
  simp only [clearBits, Nat.testBit_xor, Nat.testBit_land]
  cases m.testBit i <;> cases mask.testBit i <;> rfl

theorem clearBits_or_and (m mask : Nat) : clearBits m mask ||| (m &&& mask) = m := by
  apply Nat.eq_of_testBit_eq
  intro i
  simp only [Nat.testBit_lor, clearBits_testBit, Nat.testBit_land]
  cases m.testBit i <;> cases mask.testBit i <;> rfl

theorem clearBits_of_and_eq_zero {m mask : Nat} (h : m &&& mask = 0) :
    clearBits m mask = m := by
  simp [clearBits, h]

theorem clearBits_clearBits (m mask : Nat) :
    clearBits (clearBits m mask) mask = clearBits m mask := by
  apply Nat.eq_of_testBit_eq
  intro i
  simp only [clearBits_testBit]
  cases m.testBit i <;> cases mask.testBit i <;> rfl

theorem clearBits_and_eq_zero (m mask : Nat) : clearBits m mask &&& mask = 0 := by
  apply Nat.eq_of_testBit_eq
  intro i
  simp only [Nat.testBit_land, clearBits_testBit, Nat.zero_testBit]
  cases m.testBit i <;> cases mask.testBit i <;> rfl

/-! ### List helpers -/

theorem getD_set_self {l : List Nat} {n : Nat} {v : Nat} (h : n < l.length) :
    (l.set n v).getD n 0 = v := by
  simp [List.getD_eq_getElem?_getD, List.getElem?_set_self h]

theorem getD_set_ne {l : List Nat} {n m : Nat} {v : Nat} (h : n ≠ m) :
    (l.set n v).getD m 0 = l.getD m 0 := by
  simp [List.getD_eq_getElem?_getD, List.getElem?_set_ne h]

theorem getD_eq_zero_of_le {l : List Nat} {n : Nat} (h : l.length ≤ n) :
    l.getD n 0 = 0 := by
  simp [List.getD_eq_getElem?_getD, List.getElem?_eq_none h]

theorem getD_replicate_zero (k i : Nat) : (List.replicate k (0 : Nat)).getD i 0 = 0 := by
  rcases Nat.lt_or_ge i k with h | h
  · simp [List.getD_eq_getElem?_getD, List.getElem?_replicate, h]
  · exact getD_eq_zero_of_le (by simpa using h)

/-! ### Scintilla constants (from Scintilla.h, external to the repository) -/

def SC_PERFORMED_USER : Nat := 0x10
def SC_PERFORMED_UNDO : Nat := 0x20
def SC_PERFORMED_REDO : Nat := 0x40
def SC_MOD_INSERTTEXT : Nat := 0x1
def SC_MOD_DELETETEXT : Nat := 0x2
def SC_MOD_BEFOREDELETE : Nat := 0x800

/-- Modelled from the spec: the plugin's marker bit layout (NppHelpers.h is not
part of the given sources).  Per the spec's glossary a marker is "a per-line
annotation (bit flags) indicating diff classification (changed/moved/
blank-padding)".  Bits 0-3 are the line classification markers
(changed/added/removed/moved lines); bits 4-7 the corresponding margin symbol
markers; bit 8 the blank-padding marker.  `MARKER_MASK_LINE` covers only the
line classification markers (it is the mask the code passes to
`SCI_MARKERPREVIOUS`). -/
def MARKER_MASK_LINE : Nat := 0xF

/-- Modelled from the spec: mask of every plugin marker (line classification
markers, margin symbols and the blank-padding marker); the mask the code
applies to `SCI_MARKERGET` results. -/
def MARKER_MASK_ALL : Nat := 0x1FF

theorem line_mask_subset_all : MARKER_MASK_LINE &&& MARKER_MASK_ALL = MARKER_MASK_LINE := by
  decide

theorem and_all_ne_zero_of_and_line_ne_zero {m : Nat} (h : m &&& MARKER_MASK_LINE ≠ 0) :
    m &&& MARKER_MASK_ALL ≠ 0 := by
  intro hz
  apply h
  calc m &&& MARKER_MASK_LINE
      = m &&& (MARKER_MASK_ALL &&& MARKER_MASK_LINE) := by
        rw [Nat.land_comm MARKER_MASK_ALL MARKER_MASK_LINE, line_mask_subset_all]
    _ = (m &&& MARKER_MASK_ALL) &&& MARKER_MASK_LINE := by rw [Nat.land_assoc]
    _ = 0 := by rw [hz]; simp

/-! ### Document model

`MDoc` is the marker-relevant view of one Scintilla document: the marker
bitset of every line and the per-line "changed" indicator.  The changed
indicator is a byte-range indicator in Scintilla; both call sites in the
source clear it over `[POSITIONFROMLINE a, POSITIONFROMLINE b)`, i.e. over
the whole bytes of lines `[a, b)`, so a per-line Bool is an exact model of
those uses. -/

structure MDoc where
  markers : List Nat
  changed : List Bool
deriving Repr, DecidableEq

/-- `clearMarks` of NppHelpers, modelled from the spec ("clears those
markers"): deletes every plugin marker of one line. -/
def clearMarksAt (m : List Nat) (line : Nat) : List Nat :=
  m.set line (clearBits (m.getD line 0) MARKER_MASK_ALL)

/-- `clearChangedIndicator` over the bytes of lines `[a, b)`. -/
def clearChangedRange (c : List Bool) (a b : Nat) : List Bool :=
  c.mapIdx (fun i v => if a ≤ i ∧ i < b then false else v)

/-- `SCI_MARKERPREVIOUS` search kernel: greatest line `≤ n` whose marker
bitset meets `mask`, else `-1`. -/
def markerPrevAux (m : List Nat) (mask : Nat) : Nat → Int
  | 0 => if (m.getD 0 0) &&& mask ≠ 0 then 0 else -1
  | n + 1 =>
    if (m.getD (n + 1) 0) &&& mask ≠ 0 then ((n + 1 : Nat) : Int)
    else markerPrevAux m mask n

/-- `SCI_MARKERPREVIOUS lineStart mask`: the last line at or before
`lineStart` carrying a marker in `mask`, or `-1` if there is none. -/
def markerPrevious (m : List Nat) (line : Int) (mask : Nat) : Int :=
  if line < 0 then -1
  else markerPrevAux m mask (min line.toNat (m.length - 1))

/-! ### The marker history stack (`DeletedSection`, `DeletedSectionsList`) -/

/-- The restore action computed in `DeletedSection`'s constructor:
`(action == SC_PERFORMED_UNDO) ? SC_PERFORMED_REDO : SC_PERFORMED_UNDO`. -/
def invertAction (action : Nat) : Nat :=
  if action = SC_PERFORMED_UNDO then SC_PERFORMED_REDO else SC_PERFORMED_UNDO

structure DeletedSection where
  startLine : Nat
  lineReplace : Bool
  restoreAction : Nat
  markers : List Nat
deriving Repr, DecidableEq

/-- `DeletedSection::DeletedSection(action, line, len)`. -/
def DeletedSection.make (action line len : Nat) : DeletedSection :=
  { startLine := line
    lineReplace := false
    restoreAction := invertAction action
    markers := List.replicate len 0 }

/-- The stack of deleted sections.  The C++ `std::vector` grows at the back;
here the list head is the vector's back (the top of the stack). -/
structure DeletedSectionsList where
  skipPush : Nat
  lastPushTimeMark : Nat
  sections : List DeletedSection
deriving Repr, DecidableEq

/-- The line-replace suppression test of `push`:
`!sections.empty() && sections.back().restoreAction == currAction && sections.back().lineReplace`. -/
def suppressLineReplace (sections : List DeletedSection) (currAction : Nat) : Bool :=
  match sections with
  | [] => false
  | last :: _ => last.restoreAction == currAction && last.lineReplace

/-- The marker-capturing loop of `push`: starting from the result of
`SCI_MARKERPREVIOUS endLine MARKER_MASK_LINE`, walk marked lines downwards;
record each marked line's bitset (masked by `MARKER_MASK_ALL`) at offset
`line - startLine` of the record, and clear the line's markers unless the
line is `endLine`.  `fuel` is a structural-recursion bound; `push` passes
`endLine + 1`, which the walk (strictly decreasing, non-negative) never
exhausts. -/
def pushLoop (startLine endLine : Nat) : Nat → (List Nat × List Nat) → Int → List Nat × List Nat
  | 0, st, _ => st
  | fuel + 1, (doc, saved), line =>
    if (startLine : Int) ≤ line then
      pushLoop startLine endLine fuel
        ((if line.toNat = endLine then doc else clearMarksAt doc line.toNat),
         saved.set (line.toNat - startLine) ((doc.getD line.toNat 0) &&& MARKER_MASK_ALL))
        (markerPrevious (if line.toNat = endLine then doc else clearMarksAt doc line.toNat)
          (line - 1) MARKER_MASK_LINE)
    else (doc, saved)

/-- `DeletedSectionsList::push(currAction, startLine, endLine)`.  `now` is the
`::GetTickCount()` value at the time of the call. -/
def DeletedSectionsList.push (s : DeletedSectionsList) (doc : MDoc) (now : Nat)
    (currAction startLine endLine : Nat) : DeletedSectionsList × MDoc :=
  if endLine ≤ startLine then (s, doc)
  else if s.skipPush ≠ 0 then ({ s with skipPush := s.skipPush - 1 }, doc)
  else if suppressLineReplace s.sections currAction then (s, doc)
  else
    let delSection := DeletedSection.make currAction startLine (endLine - startLine + 1)
    let changed1 := clearChangedRange doc.changed startLine endLine
    let start := markerPrevious doc.markers (endLine : Int) MARKER_MASK_LINE
    let res := pushLoop startLine endLine (endLine + 1) (doc.markers, delSection.markers) start
    ({ s with
        sections := { delSection with markers := res.2 } :: s.sections
        lastPushTimeMark := now },
     { markers := res.1, changed := changed1 })

/-- The marker-restoring loop of `pop`: for each saved entry, clear the line's
markers and, when the saved bitset is non-zero, `SCI_MARKERADDSET` it back. -/
def popApplyFrom (doc : List Nat) (line : Nat) : List Nat → List Nat
  | [] => doc
  | sv :: rest =>
    let d1 := clearMarksAt doc line
    let d2 := if sv ≠ 0 then d1.set line ((d1.getD line 0) ||| sv) else d1
    popApplyFrom d2 (line + 1) rest

/-- `DeletedSectionsList::pop(currAction, startLine)`.  `now` is the
`::GetTickCount()` value at the time of the call. -/
def DeletedSectionsList.pop (s : DeletedSectionsList) (doc : MDoc) (now : Nat)
    (currAction startLine : Nat) : DeletedSectionsList × MDoc :=
  match s.sections with
  | [] => ({ s with skipPush := s.skipPush + 1 }, doc)
  | last :: rest =>
    if last.restoreAction ≠ currAction then
      if now < s.lastPushTimeMark + 40 then
        ({ s with sections := { last with lineReplace := true } :: rest }, doc)
      else
        ({ s with skipPush := s.skipPush + 1 }, doc)
    else if last.startLine ≠ startLine then (s, doc)
    else
      let linesCount := last.markers.length
      let changed1 := clearChangedRange doc.changed last.startLine (last.startLine + linesCount)
      let markers1 := popApplyFrom doc.markers last.startLine last.markers
      ({ s with sections := rest }, { markers := markers1, changed := changed1 })

/-! ### Specification of `markerPrevious` -/

theorem markerPrevAux_ge (m : List Nat) (mask : Nat) : ∀ n, -1 ≤ markerPrevAux m mask n := by
  intro n
  induction n with
  | zero => unfold markerPrevAux; split <;> omega
  | succ n ih => unfold markerPrevAux; split <;> omega

theorem markerPrevAux_le (m : List Nat) (mask : Nat) : ∀ n, markerPrevAux m mask n ≤ (n : Int) := by
  intro n
  induction n with
  | zero => unfold markerPrevAux; split <;> omega
  | succ n ih =>
    unfold markerPrevAux
    split
    · omega
    · have := ih; push_cast; push_cast at this; omega

theorem markerPrevAux_marked (m : List Nat) (mask : Nat) : ∀ n,
    0 ≤ markerPrevAux m mask n →
    (m.getD (markerPrevAux m mask n).toNat 0) &&& mask ≠ 0 := by
  intro n
  induction n with
  | zero =>
    intro h0
    unfold markerPrevAux at h0 ⊢
    by_cases hm : (m.getD 0 0) &&& mask ≠ 0
    · rw [if_pos hm] at h0 ⊢
      simpa using hm
    · rw [if_neg hm] at h0
      omega
  | succ n ih =>
    intro h0
    unfold markerPrevAux at h0 ⊢
    by_cases hm : (m.getD (n + 1) 0) &&& mask ≠ 0
    · rw [if_pos hm] at h0 ⊢
      simpa using hm
    · rw [if_neg hm] at h0 ⊢
      exact ih h0

theorem markerPrevAux_between (m : List Nat) (mask : Nat) : ∀ n, ∀ j : Nat,
    markerPrevAux m mask n < (j : Int) → j ≤ n → (m.getD j 0) &&& mask = 0 := by
  intro n
  induction n with
  | zero =>
    intro j hlt hle
    unfold markerPrevAux at hlt
    have hj : j = 0 := Nat.le_zero.mp hle
    subst hj
    split at hlt
    · omega
    · next hm => simpa using hm
  | succ n ih =>
    intro j hlt hle
    unfold markerPrevAux at hlt
    split at hlt
    · omega
    · next hm =>
      rcases Nat.lt_or_ge j (n + 1) with hj | hj
      · exact ih j hlt (by omega)
      · have : j = n + 1 := by omega
        subst this
        simpa using hm

theorem markerPrevAux_congr (mask : Nat) (m1 m2 : List Nat) : ∀ n,
    (∀ j : Nat, j ≤ n → m1.getD j 0 = m2.getD j 0) →
    markerPrevAux m1 mask n = markerPrevAux m2 mask n := by
  intro n
  induction n with
  | zero =>
    intro h
    unfold markerPrevAux
    rw [h 0 (by omega)]
  | succ n ih =>
    intro h
    unfold markerPrevAux
    rw [h (n + 1) (by omega), ih (fun j hj => h j (by omega))]

theorem markerPrevious_ge (m : List Nat) (l : Int) (mask : Nat) :
    -1 ≤ markerPrevious m l mask := by
  unfold markerPrevious
  split
  · omega
  · exact markerPrevAux_ge m mask _

theorem markerPrevious_le (m : List Nat) {l : Int} (mask : Nat) (h : -1 ≤ l) :
    markerPrevious m l mask ≤ l := by
  unfold markerPrevious
  split
  · omega
  · next hneg =>
    have hl : 0 ≤ l := by omega
    have h1 := markerPrevAux_le m mask (min l.toNat (m.length - 1))
    have h2 : (min l.toNat (m.length - 1) : Int) ≤ l := by
      have := Nat.min_le_left l.toNat (m.length - 1)
      omega
    omega

theorem markerPrevious_marked (m : List Nat) (l : Int) {mask : Nat}
    (h : 0 ≤ markerPrevious m l mask) :
    (m.getD (markerPrevious m l mask).toNat 0) &&& mask ≠ 0 := by
  unfold markerPrevious at h ⊢
  split at h
  · omega
  · next hneg =>
    simp only [if_neg hneg]
    exact markerPrevAux_marked m mask _ h

theorem markerPrevious_between (m : List Nat) (l : Int) {mask : Nat} (j : Nat)
    (h1 : markerPrevious m l mask < (j : Int)) (h2 : (j : Int) ≤ l) :
    (m.getD j 0) &&& mask = 0 := by
  unfold markerPrevious at h1
  split at h1
  · omega
  · next hneg =>
    have hl : 0 ≤ l := by omega
    rcases Nat.lt_or_ge (min l.toNat (m.length - 1)) j with hj | hj
    · -- j is beyond the scanned range, hence beyond the list
      have hjl : j ≤ l.toNat := by omega
      have : m.length ≤ j := by
        rcases Nat.lt_or_ge j m.length with hc | hc
        · exfalso
          have : m.length - 1 < j := by omega
          omega
        · exact hc
      rw [getD_eq_zero_of_le this]
      simp
    · exact markerPrevAux_between m mask _ j h1 hj

theorem markerPrevious_congr {m1 m2 : List Nat} (l : Int) (mask : Nat)
    (hlen : m1.length = m2.length)
    (hagree : ∀ j : Nat, (j : Int) ≤ l → m1.getD j 0 = m2.getD j 0) :
    markerPrevious m1 l mask = markerPrevious m2 l mask := by
  unfold markerPrevious
  split
  · rfl
  · next hneg =>
    rw [hlen]
    apply markerPrevAux_congr
    intro j hj
    apply hagree
    have : j ≤ l.toNat := le_trans hj (by exact Nat.min_le_left _ _)
    omega

/-! ### Specification of the `push` capture loop -/

theorem clearMarksAt_length (m : List Nat) (line : Nat) :
    (clearMarksAt m line).length = m.length := by
  simp [clearMarksAt]

theorem clearMarksAt_getD_self {m : List Nat} {line : Nat} (h : line < m.length) :
    (clearMarksAt m line).getD line 0 = clearBits (m.getD line 0) MARKER_MASK_ALL :=
  getD_set_self h

theorem clearMarksAt_getD_ne {m : List Nat} {line j : Nat} (h : line ≠ j) :
    (clearMarksAt m line).getD j 0 = m.getD j 0 :=
  getD_set_ne h

theorem getD_lt_length_of_ne_zero {m : List Nat} {j : Nat} (h : m.getD j 0 ≠ 0) :
    j < m.length := by
  by_contra hc
  exact h (getD_eq_zero_of_le (by omega))

theorem pushLoop_spec (sl el : Nat) (d0 : List Nat) :
    ∀ (fuel : Nat) (line : Int) (d s : List Nat),
    (line + 1).toNat ≤ fuel →
    (∀ j : Nat, (j : Int) ≤ line → d.getD j 0 = d0.getD j 0) →
    d.length = d0.length →
    ((sl : Int) ≤ line → (d0.getD line.toNat 0) &&& MARKER_MASK_LINE ≠ 0) →
    line ≤ (el : Int) →
    s.length = el + 1 - sl →
    (∀ j : Nat,
      (pushLoop sl el fuel (d, s) line).1.getD j 0 =
        if sl ≤ j ∧ (j : Int) ≤ line ∧ (d0.getD j 0) &&& MARKER_MASK_LINE ≠ 0 ∧ j ≠ el
        then clearBits (d0.getD j 0) MARKER_MASK_ALL
        else d.getD j 0) ∧
    (pushLoop sl el fuel (d, s) line).1.length = d.length ∧
    (∀ i : Nat,
      (pushLoop sl el fuel (d, s) line).2.getD i 0 =
        if (sl + i : Int) ≤ line ∧ (d0.getD (sl + i) 0) &&& MARKER_MASK_LINE ≠ 0
        then (d0.getD (sl + i) 0) &&& MARKER_MASK_ALL
        else s.getD i 0) ∧
    (pushLoop sl el fuel (d, s) line).2.length = s.length := by
  intro fuel
  induction fuel with
  | zero =>
    intro line d s hfuel hAgree hLen hMark hUp hsLen
    simp only [pushLoop]
    refine ⟨?_, by trivial, ?_, by trivial⟩
    · intro j
      rw [if_neg]
      rintro ⟨-, hj, -, -⟩
      omega
    · intro i
      rw [if_neg]
      rintro ⟨hi, -⟩
      omega
  | succ fuel ih =>
    intro line d s hfuel hAgree hLen hMark hUp hsLen
    by_cases hL : (sl : Int) ≤ line
    case neg =>
      simp only [pushLoop, if_neg hL]
      refine ⟨?_, by trivial, ?_, by trivial⟩
      · intro j
        rw [if_neg]
        rintro ⟨hj1, hj2, -, -⟩
        omega
      · intro i
        rw [if_neg]
        rintro ⟨hi, -⟩
        omega
    case pos =>
      have hline0 : 0 ≤ line := le_trans (by omega) hL
      have hAcast : (line.toNat : Int) = line := Int.toNat_of_nonneg hline0
      set A := line.toNat with hAdef
      -- the next scan position, over the mutated and the original document
      set docNext := (if A = el then d else clearMarksAt d A) with hdocNext
      have hdnLen : docNext.length = d.length := by
        rw [hdocNext]
        split
        · rfl
        · exact clearMarksAt_length d A
      have hdnNe : ∀ j : Nat, j ≠ A → docNext.getD j 0 = d.getD j 0 := by
        intro j hj
        rw [hdocNext]
        split
        · rfl
        · exact clearMarksAt_getD_ne (Ne.symm hj)
      have hdnAgree : ∀ j : Nat, (j : Int) ≤ line - 1 → docNext.getD j 0 = d.getD j 0 := by
        intro j hj
        exact hdnNe j (by omega)
      have hnext_eq :
          markerPrevious docNext (line - 1) MARKER_MASK_LINE =
          markerPrevious d0 (line - 1) MARKER_MASK_LINE := by
        apply markerPrevious_congr _ _ (by omega)
        intro j hj
        rw [hdnAgree j hj]
        exact hAgree j (by omega)
      set next := markerPrevious d0 (line - 1) MARKER_MASK_LINE with hnextdef
      have hnext_ge : -1 ≤ next := markerPrevious_ge d0 _ _
      have hnext_le : next ≤ line - 1 := markerPrevious_le d0 _ (by omega)
      have hnext_marked : (sl : Int) ≤ next → (d0.getD next.toNat 0) &&& MARKER_MASK_LINE ≠ 0 := by
        intro h
        rw [hnextdef]
        apply markerPrevious_marked d0 (line - 1)
        rw [← hnextdef]
        omega
      have hbetween : ∀ j : Nat, next < (j : Int) → (j : Int) ≤ line - 1 →
          (d0.getD j 0) &&& MARKER_MASK_LINE = 0 := by
        intro j h1 h2
        apply markerPrevious_between d0 (line - 1) j ?_ h2
        rw [← hnextdef]
        omega
      -- unfold one loop step
      have hstep : pushLoop sl el (fuel + 1) (d, s) line =
          pushLoop sl el fuel
            (docNext, s.set (A - sl) ((d.getD A 0) &&& MARKER_MASK_ALL)) next := by
        simp only [pushLoop, if_pos hL]
        rw [← hAdef, ← hdocNext, hnext_eq]
      set captured := s.set (A - sl) ((d.getD A 0) &&& MARKER_MASK_ALL) with hcapdef
      have hmarkedA : (d0.getD A 0) &&& MARKER_MASK_LINE ≠ 0 := by
        apply hMark hL
      have hagreeA : d.getD A 0 = d0.getD A 0 := hAgree A (by omega)
      have hAltd : A < d.length := by
        rw [hLen]
        apply getD_lt_length_of_ne_zero
        intro hz
        rw [hz] at hmarkedA
        simp at hmarkedA
      have hAle : A ≤ el := by omega
      have hslA : sl ≤ A := by omega
      obtain ⟨ih1, ih2, ih3, ih4⟩ := ih next docNext captured
        (by omega)
        (by
          intro j hj
          rw [hdnAgree j (by omega)]
          exact hAgree j (by omega))
        (by rw [hdnLen, hLen])
        (by
          intro h
          exact hnext_marked h)
        (by omega)
        (by rw [hcapdef]; simpa using hsLen)
      rw [hstep]
      refine ⟨?_, ?_, ?_, ?_⟩
      · -- document characterization
        intro j
        rw [ih1 j]
        by_cases hc : sl ≤ j ∧ (j : Int) ≤ line ∧ (d0.getD j 0) &&& MARKER_MASK_LINE ≠ 0 ∧ j ≠ el
        · rw [if_pos hc]
          obtain ⟨hc1, hc2, hc3, hc4⟩ := hc
          by_cases hj : (j : Int) ≤ next
          · rw [if_pos ⟨hc1, hj, hc3, hc4⟩]
          · rw [if_neg (by rintro ⟨-, h2, -, -⟩; exact hj h2)]
            -- next < j ≤ line: j must be A (the one just processed)
            have hjA : j = A := by
              by_contra hne
              have hjlt : (j : Int) ≤ line - 1 := by omega
              exact hc3 (hbetween j (by omega) hjlt)
            subst hjA
            have hAne : A ≠ el := hc4
            rw [hdocNext, if_neg hAne, clearMarksAt_getD_self hAltd, hagreeA]
        · rw [if_neg hc]
          rw [if_neg (by
            rintro ⟨h1, h2, h3, h4⟩
            exact hc ⟨h1, by omega, h3, h4⟩)]
          by_cases hjA : j = A
          · subst hjA
            have hAel : A = el := by
              by_contra hne
              exact hc ⟨hslA, by omega, hmarkedA, hne⟩
            rw [hdocNext, if_pos hAel]
          · exact hdnNe j hjA
      · rw [ih2, hdnLen]
      · -- saved-markers characterization
        intro i
        rw [ih3 i]
        by_cases hc : (sl + i : Int) ≤ line ∧ (d0.getD (sl + i) 0) &&& MARKER_MASK_LINE ≠ 0
        · rw [if_pos hc]
          obtain ⟨hc1, hc2⟩ := hc
          by_cases hj : (sl + i : Int) ≤ next
          · rw [if_pos ⟨hj, hc2⟩]
          · rw [if_neg (by rintro ⟨h1, -⟩; exact hj h1)]
            have hiA : sl + i = A := by
              by_contra hne
              exact hc2 (hbetween (sl + i) (by omega) (by omega))
            have hieq : i = A - sl := by omega
            have hidx : captured.getD i 0 = (d.getD A 0) &&& MARKER_MASK_ALL := by
              rw [hcapdef, hieq]
              exact getD_set_self (by omega)
            rw [hidx, hagreeA, hiA]
        · rw [if_neg hc]
          rw [if_neg (by
            rintro ⟨h1, h2⟩
            exact hc ⟨by omega, h2⟩)]
          rw [hcapdef]
          by_cases hiA : i = A - sl
          · exfalso
            have hiA2 : sl + i = A := by omega
            exact hc ⟨by omega, by rw [hiA2]; exact hmarkedA⟩
          · exact getD_set_ne (by omega)
      · rw [ih4, hcapdef]
        simp

/-- Full characterization of a successful `DeletedSectionsList::push`: when the
range is multi-line, no skip is pending and the top record does not suppress
the push, the new record captures (masked by `MARKER_MASK_ALL`) the bitset of
every line of `[startLine, endLine]` that carries a `MARKER_MASK_LINE` marker,
those lines are cleared except `endLine` itself, and the changed indicator is
cleared over the bytes of lines `[startLine, endLine)`. -/
theorem push_spec (s : DeletedSectionsList) (doc : MDoc) (now a sl el : Nat)
    (h1 : sl < el) (h2 : s.skipPush = 0) (h3 : suppressLineReplace s.sections a = false) :
    (s.push doc now a sl el).1.skipPush = s.skipPush ∧
    (s.push doc now a sl el).1.lastPushTimeMark = now ∧
    (∃ rec : DeletedSection,
      (s.push doc now a sl el).1.sections = rec :: s.sections ∧
      rec.startLine = sl ∧ rec.restoreAction = invertAction a ∧ rec.lineReplace = false ∧
      rec.markers.length = el - sl + 1 ∧
      (∀ i : Nat, rec.markers.getD i 0 =
        if sl + i ≤ el ∧ (doc.markers.getD (sl + i) 0) &&& MARKER_MASK_LINE ≠ 0
        then (doc.markers.getD (sl + i) 0) &&& MARKER_MASK_ALL else 0)) ∧
    (∀ j : Nat, (s.push doc now a sl el).2.markers.getD j 0 =
      if sl ≤ j ∧ j ≤ el ∧ j ≠ el ∧ (doc.markers.getD j 0) &&& MARKER_MASK_LINE ≠ 0
      then clearBits (doc.markers.getD j 0) MARKER_MASK_ALL
      else doc.markers.getD j 0) ∧
    (s.push doc now a sl el).2.markers.length = doc.markers.length ∧
    (s.push doc now a sl el).2.changed = clearChangedRange doc.changed sl el := by
  have hne : ¬ el ≤ sl := by omega
  have hsk : ¬ s.skipPush ≠ 0 := by simp [h2]
  have hstart_ge := markerPrevious_ge doc.markers (el : Int) MARKER_MASK_LINE
  have hstart_le : markerPrevious doc.markers (el : Int) MARKER_MASK_LINE ≤ (el : Int) :=
    markerPrevious_le doc.markers MARKER_MASK_LINE (by omega)
  set start := markerPrevious doc.markers (el : Int) MARKER_MASK_LINE with hstartdef
  have hpush : s.push doc now a sl el =
      ({ s with
          sections :=
            { DeletedSection.make a sl (el - sl + 1) with
                markers :=
                  (pushLoop sl el (el + 1)
                    (doc.markers, List.replicate (el - sl + 1) 0) start).2 } :: s.sections
          lastPushTimeMark := now },
       { markers :=
            (pushLoop sl el (el + 1)
              (doc.markers, List.replicate (el - sl + 1) 0) start).1
         changed := clearChangedRange doc.changed sl el }) := by
    rw [DeletedSectionsList.push, if_neg hne, if_neg hsk, if_neg (by simp [h3])]
    rfl
  obtain ⟨hd, hdl, hs, hsl2⟩ := pushLoop_spec sl el doc.markers (el + 1) start
    doc.markers (List.replicate (el - sl + 1) 0)
    (by omega)
    (fun _ _ => rfl)
    rfl
    (by
      intro h
      rw [hstartdef]
      apply markerPrevious_marked doc.markers (el : Int)
      rw [← hstartdef]
      omega)
    hstart_le
    (by simp [List.length_replicate]; omega)
  have hmarked_le_start : ∀ j : Nat, j ≤ el →
      (doc.markers.getD j 0) &&& MARKER_MASK_LINE ≠ 0 → (j : Int) ≤ start := by
    intro j hj hm
    by_contra hgt
    apply hm
    apply markerPrevious_between doc.markers (el : Int) j ?_ (by omega)
    rw [← hstartdef]
    omega
  rw [hpush]
  refine ⟨rfl, rfl, ?_, ?_, ?_, rfl⟩
  · refine ⟨_, rfl, rfl, rfl, rfl, ?_, ?_⟩
    · rw [hsl2]
      simp [List.length_replicate]
    · intro i
      rw [hs i]
      by_cases hc : sl + i ≤ el ∧ (doc.markers.getD (sl + i) 0) &&& MARKER_MASK_LINE ≠ 0
      · rw [if_pos hc]
        rw [if_pos ⟨hmarked_le_start (sl + i) hc.1 hc.2, hc.2⟩]
      · rw [if_neg hc, if_neg, getD_replicate_zero]
        rintro ⟨hc1, hc2⟩
        exact hc ⟨by omega, hc2⟩
  · intro j
    rw [hd j]
    by_cases hc : sl ≤ j ∧ j ≤ el ∧ j ≠ el ∧ (doc.markers.getD j 0) &&& MARKER_MASK_LINE ≠ 0
    · obtain ⟨hc1, hc2, hc3, hc4⟩ := hc
      rw [if_pos ⟨hc1, hmarked_le_start j hc2 hc4, hc4, hc3⟩,
        if_pos ⟨hc1, hc2, hc3, hc4⟩]
    · rw [if_neg hc, if_neg]
      rintro ⟨hd1, hd2, hd3, hd4⟩
      exact hc ⟨hd1, by omega, hd4, hd3⟩
  · rw [hdl]

/-- Pointwise characterization of the marker-restoring loop of `pop`. -/
theorem popApplyFrom_spec : ∀ (sv d : List Nat) (line : Nat),
    (popApplyFrom d line sv).length = d.length ∧
    (∀ j : Nat, (popApplyFrom d line sv).getD j 0 =
      if line ≤ j ∧ j < line + sv.length ∧ j < d.length then
        (if sv.getD (j - line) 0 ≠ 0
         then clearBits (d.getD j 0) MARKER_MASK_ALL ||| sv.getD (j - line) 0
         else clearBits (d.getD j 0) MARKER_MASK_ALL)
      else d.getD j 0) := by
  intro sv
  induction sv with
  | nil =>
    intro d line
    refine ⟨rfl, ?_⟩
    intro j
    rw [show (([] : List Nat)).length = 0 from rfl, if_neg (by omega)]
    rfl
  | cons sv rest ih =>
    intro d line
    simp only [popApplyFrom]
    set d1 := clearMarksAt d line with hd1
    set d2 := (if sv ≠ 0 then d1.set line ((d1.getD line 0) ||| sv) else d1) with hd2
    have hd1len : d1.length = d.length := clearMarksAt_length d line
    have hd2len : d2.length = d.length := by
      rw [hd2]
      split <;> simp [hd1len]
    have hd2ne : ∀ j : Nat, j ≠ line → d2.getD j 0 = d.getD j 0 := by
      intro j hj
      have hstep1 : d1.getD j 0 = d.getD j 0 := clearMarksAt_getD_ne (Ne.symm hj)
      rw [hd2]
      split
      · rw [getD_set_ne (Ne.symm hj)]
        exact hstep1
      · exact hstep1
    have hd2line : d2.getD line 0 =
        if line < d.length then
          (if sv ≠ 0
           then clearBits (d.getD line 0) MARKER_MASK_ALL ||| sv
           else clearBits (d.getD line 0) MARKER_MASK_ALL)
        else d.getD line 0 := by
      by_cases hlt : line < d.length
      · rw [if_pos hlt]
        have h1 : d1.getD line 0 = clearBits (d.getD line 0) MARKER_MASK_ALL :=
          clearMarksAt_getD_self hlt
        rw [hd2]
        by_cases hsv : sv ≠ 0
        · rw [if_pos hsv, if_pos hsv, getD_set_self (by omega), h1]
        · rw [if_neg hsv, if_neg hsv]
          exact h1
      · rw [if_neg hlt]
        have hdeq : d1 = d := by
          rw [hd1, clearMarksAt, List.set_eq_of_length_le (by omega)]
        have hdeq2 : d2 = d := by
          rw [hd2, hdeq]
          split
          · rw [List.set_eq_of_length_le (by omega)]
          · rfl
        rw [hdeq2]
    obtain ⟨ihl, ihg⟩ := ih d2 (line + 1)
    refine ⟨by rw [ihl, hd2len], ?_⟩
    intro j
    rw [ihg j]
    rcases Nat.lt_trichotomy j line with hj | hj | hj
    · -- below the restored range: untouched
      rw [if_neg (by omega), if_neg (by omega)]
      exact hd2ne j (by omega)
    · -- the line restored by this step
      subst hj
      rw [if_neg (by omega)]
      by_cases hlt : j < d.length
      · rw [if_pos ⟨le_refl j, by rw [List.length_cons]; omega, hlt⟩]
        simp only [Nat.sub_self, List.getD_cons_zero]
        rw [hd2line, if_pos hlt]
      · rw [if_neg (by rw [List.length_cons]; omega)]
        rw [hd2line, if_neg hlt]
    · -- above the current line: handled by the recursive call on `rest`
      have hsub : j - line = (j - (line + 1)) + 1 := by omega
      by_cases hc : line + 1 ≤ j ∧ j < line + 1 + rest.length ∧ j < d.length
      · rw [if_pos ⟨hc.1, hc.2.1, by rw [hd2len]; exact hc.2.2⟩]
        have hcr : line ≤ j ∧ j < line + (sv :: rest).length ∧ j < d.length :=
          ⟨by omega, by rw [List.length_cons]; omega, hc.2.2⟩
        rw [if_pos hcr, hsub, List.getD_cons_succ, hd2ne j (by omega)]
      · rw [if_neg (by rw [hd2len]; exact hc),
          if_neg (by rw [List.length_cons]; rintro ⟨k1, k2, k3⟩; exact hc ⟨by omega, by omega, k3⟩)]
        exact hd2ne j (by omega)

/-! ### Branch lemmas for `push` and `pop` -/

theorem push_single_line (s : DeletedSectionsList) (doc : MDoc) (now ca sl el : Nat)
    (h : el ≤ sl) : s.push doc now ca sl el = (s, doc) := by
  rw [DeletedSectionsList.push, if_pos h]

theorem push_skip (s : DeletedSectionsList) (doc : MDoc) (now ca sl el : Nat)
    (h1 : ¬ el ≤ sl) (h2 : s.skipPush ≠ 0) :
    s.push doc now ca sl el = ({ s with skipPush := s.skipPush - 1 }, doc) := by
  rw [DeletedSectionsList.push, if_neg h1, if_pos h2]

theorem push_suppressed (s : DeletedSectionsList) (doc : MDoc) (now ca sl el : Nat)
    (h1 : ¬ el ≤ sl) (h2 : s.skipPush = 0)
    (h3 : suppressLineReplace s.sections ca = true) :
    s.push doc now ca sl el = (s, doc) := by
  rw [DeletedSectionsList.push, if_neg h1, if_neg (by simp [h2]), if_pos h3]

theorem pop_empty (s : DeletedSectionsList) (doc : MDoc) (now ca l : Nat)
    (h : s.sections = []) :
    s.pop doc now ca l = ({ s with skipPush := s.skipPush + 1 }, doc) := by
  simp only [DeletedSectionsList.pop, h]

theorem pop_mismatch_within (s : DeletedSectionsList) (doc : MDoc) (now ca l : Nat)
    (r : DeletedSection) (rest : List DeletedSection)
    (hsec : s.sections = r :: rest) (hact : r.restoreAction ≠ ca)
    (htime : now < s.lastPushTimeMark + 40) :
    s.pop doc now ca l =
      ({ s with sections := { r with lineReplace := true } :: rest }, doc) := by
  simp only [DeletedSectionsList.pop, hsec]
  rw [if_pos hact, if_pos htime]

theorem pop_mismatch_outside (s : DeletedSectionsList) (doc : MDoc) (now ca l : Nat)
    (r : DeletedSection) (rest : List DeletedSection)
    (hsec : s.sections = r :: rest) (hact : r.restoreAction ≠ ca)
    (htime : ¬ now < s.lastPushTimeMark + 40) :
    s.pop doc now ca l = ({ s with skipPush := s.skipPush + 1 }, doc) := by
  simp only [DeletedSectionsList.pop, hsec]
  rw [if_pos hact, if_neg htime]

theorem pop_wrong_line (s : DeletedSectionsList) (doc : MDoc) (now ca l : Nat)
    (r : DeletedSection) (rest : List DeletedSection)
    (hsec : s.sections = r :: rest) (hact : r.restoreAction = ca)
    (hline : r.startLine ≠ l) :
    s.pop doc now ca l = (s, doc) := by
  simp only [DeletedSectionsList.pop, hsec]
  rw [if_neg (by simp [hact]), if_pos hline]

theorem pop_replay (s : DeletedSectionsList) (doc : MDoc) (now ca l : Nat)
    (r : DeletedSection) (rest : List DeletedSection)
    (hsec : s.sections = r :: rest) (hact : r.restoreAction = ca)
    (hline : r.startLine = l) :
    s.pop doc now ca l =
      ({ s with sections := rest },
       { markers := popApplyFrom doc.markers r.startLine r.markers
         changed := clearChangedRange doc.changed r.startLine
            (r.startLine + r.markers.length) }) := by
  simp only [DeletedSectionsList.pop, hsec]
  rw [if_neg (by simp [hact]), if_neg (by simp [hline])]

/-! ### Claim C1 -/

/-- C1, counterexample to the claim as stated.  The claim promises exact
round-trip restore fidelity for *every* marker state.  But `push` captures a
line only when `SCI_MARKERPREVIOUS` finds a `MARKER_MASK_LINE` bit on it,
while the matching `pop` clears every plugin marker of the range before
re-applying what was captured.  A line whose only plugin marker lies in
`MARKER_MASK_ALL` but outside `MARKER_MASK_LINE` (bit 4 here, a margin-symbol
marker) is therefore not captured, yet is cleared by the pop: after a
push/pop pair that satisfies every precondition of the claim (matching action,
matching start line, record removed), line 0's bitset is 0 instead of the
original 16. -/
theorem C1_cex :
    ((((DeletedSectionsList.mk 0 0 []).push (MDoc.mk [16, 0] [false, false]) 0
          SC_PERFORMED_USER 0 1).1.pop
        ((DeletedSectionsList.mk 0 0 []).push (MDoc.mk [16, 0] [false, false]) 0
          SC_PERFORMED_USER 0 1).2 5 (invertAction SC_PERFORMED_USER) 0).1.sections = []) ∧
    ((((DeletedSectionsList.mk 0 0 []).push (MDoc.mk [16, 0] [false, false]) 0
          SC_PERFORMED_USER 0 1).1.pop
        ((DeletedSectionsList.mk 0 0 []).push (MDoc.mk [16, 0] [false, false]) 0
          SC_PERFORMED_USER 0 1).2 5 (invertAction SC_PERFORMED_USER) 0).2.markers.getD 0 0 = 0) ∧
    ((MDoc.mk [16, 0] [false, false]).markers.getD 0 0 = 16) ∧
    (0 : Nat) ≠ 16 := by
  decide

/-- C1 (amended): round-trip restore fidelity of the marker history stack
holds for every deleted range in which each line's marker bitset either
carries a `MARKER_MASK_LINE` classification bit or carries no
`MARKER_MASK_ALL` plugin marker at all: a successful multi-line
`push(action, startLine, endLine)` followed by a `pop` whose action equals
the record's restore action and whose start line equals the record's start
line re-applies, for every line in `[startLine, endLine]`, exactly the marker
bitset the line had before the push, removes the record, and leaves the stack
and `skipPush` as they were before the push. -/
theorem C1_round_trip_restores_markers (s : DeletedSectionsList) (doc : MDoc)
    (a sl el t1 t2 : Nat)
    (h1 : sl < el) (h2 : s.skipPush = 0) (h3 : suppressLineReplace s.sections a = false)
    (h4 : ∀ j : Nat, sl ≤ j → j ≤ el →
      (doc.markers.getD j 0) &&& MARKER_MASK_LINE ≠ 0 ∨
      (doc.markers.getD j 0) &&& MARKER_MASK_ALL = 0) :
    (((s.push doc t1 a sl el).1.pop (s.push doc t1 a sl el).2 t2
        (invertAction a) sl).1.sections = s.sections) ∧
    (((s.push doc t1 a sl el).1.pop (s.push doc t1 a sl el).2 t2
        (invertAction a) sl).1.skipPush = s.skipPush) ∧
    (∀ j : Nat, sl ≤ j → j ≤ el →
      ((s.push doc t1 a sl el).1.pop (s.push doc t1 a sl el).2 t2
        (invertAction a) sl).2.markers.getD j 0 = doc.markers.getD j 0) := by
  obtain ⟨q1, q2, ⟨rec, hsec, hstart, hact, hrep, hlen, hvals⟩, hdocv, hdlen, hchg⟩ :=
    push_spec s doc t1 a sl el h1 h2 h3
  have hpop := pop_replay (s.push doc t1 a sl el).1 (s.push doc t1 a sl el).2 t2
    (invertAction a) sl rec s.sections hsec hact hstart
  obtain ⟨hplen, hpg⟩ := popApplyFrom_spec rec.markers (s.push doc t1 a sl el).2.markers
    rec.startLine
  rw [hstart] at hpg
  have e1 : ((s.push doc t1 a sl el).1.pop (s.push doc t1 a sl el).2 t2
      (invertAction a) sl).1.sections = s.sections := by
    rw [hpop]
  have e2 : ((s.push doc t1 a sl el).1.pop (s.push doc t1 a sl el).2 t2
      (invertAction a) sl).1.skipPush = s.skipPush := by
    rw [hpop]
    exact q1
  have e3 : ((s.push doc t1 a sl el).1.pop (s.push doc t1 a sl el).2 t2
      (invertAction a) sl).2.markers =
      popApplyFrom (s.push doc t1 a sl el).2.markers sl rec.markers := by
    rw [hpop, hstart]
  refine ⟨e1, e2, ?_⟩
  intro j hj1 hj2
  have hj3 : sl + (j - sl) = j := by omega
  have hsv := hvals (j - sl)
  rw [hj3] at hsv
  rcases h4 j hj1 hj2 with hm | hz
  · -- line carries a classification marker: captured and restored exactly
    have hmne : doc.markers.getD j 0 ≠ 0 := by
      intro h0
      rw [h0] at hm
      simp at hm
    have hjlen : j < doc.markers.length := getD_lt_length_of_ne_zero hmne
    have hsvpos : rec.markers.getD (j - sl) 0 =
        (doc.markers.getD j 0) &&& MARKER_MASK_ALL := by
      rw [hsv, if_pos ⟨hj2, hm⟩]
    have hsvne : rec.markers.getD (j - sl) 0 ≠ 0 := by
      rw [hsvpos]
      exact and_all_ne_zero_of_and_line_ne_zero hm
    rw [e3, hpg j,
      if_pos ⟨hj1, by rw [hlen]; omega, by rw [hdlen]; exact hjlen⟩,
      if_pos hsvne, hsvpos, hdocv j]
    by_cases hel : j = el
    · rw [if_neg (by rintro ⟨-, -, hne, -⟩; exact hne hel)]
      exact clearBits_or_and _ MARKER_MASK_ALL
    · rw [if_pos ⟨hj1, hj2, hel, hm⟩, clearBits_clearBits]
      exact clearBits_or_and _ MARKER_MASK_ALL
  · -- line carries no plugin marker at all: untouched by push, cleared to 0 = 0
    have hline0 : (doc.markers.getD j 0) &&& MARKER_MASK_LINE = 0 := by
      calc (doc.markers.getD j 0) &&& MARKER_MASK_LINE
          = (doc.markers.getD j 0) &&& (MARKER_MASK_ALL &&& MARKER_MASK_LINE) := by
            rw [Nat.land_comm MARKER_MASK_ALL MARKER_MASK_LINE, line_mask_subset_all]
        _ = ((doc.markers.getD j 0) &&& MARKER_MASK_ALL) &&& MARKER_MASK_LINE := by
            rw [Nat.land_assoc]
        _ = 0 := by rw [hz]; simp
    have hsv0 : rec.markers.getD (j - sl) 0 = 0 := by
      rw [hsv, if_neg (by rintro ⟨-, hmm⟩; exact hmm hline0)]
    have hpd : (s.push doc t1 a sl el).2.markers.getD j 0 = doc.markers.getD j 0 := by
      rw [hdocv j, if_neg (by rintro ⟨-, -, -, hmm⟩; exact hmm hline0)]
    rw [e3, hpg j]
    by_cases hjlen : j < doc.markers.length
    · rw [if_pos ⟨hj1, by rw [hlen]; omega, by rw [hdlen]; exact hjlen⟩,
        if_neg (fun hcon => hcon hsv0), hpd]
      exact clearBits_of_and_eq_zero hz
    · rw [if_neg (by rintro ⟨-, -, hcc⟩; rw [hdlen] at hcc; exact hjlen hcc), hpd]

theorem C1_witness :
    ((0 : Nat) < 1) ∧
    ((((DeletedSectionsList.mk 0 0 []).push (MDoc.mk [3, 5] [true, true]) 0
          SC_PERFORMED_USER 0 1).1.pop
        ((DeletedSectionsList.mk 0 0 []).push (MDoc.mk [3, 5] [true, true]) 0
          SC_PERFORMED_USER 0 1).2 100 (invertAction SC_PERFORMED_USER) 0).1.sections = []) ∧
    ((((DeletedSectionsList.mk 0 0 []).push (MDoc.mk [3, 5] [true, true]) 0
          SC_PERFORMED_USER 0 1).1.pop
        ((DeletedSectionsList.mk 0 0 []).push (MDoc.mk [3, 5] [true, true]) 0
          SC_PERFORMED_USER 0 1).2 100 (invertAction SC_PERFORMED_USER) 0).1.skipPush = 0) ∧
    (∀ j : Nat, 0 ≤ j → j ≤ 1 →
      (((DeletedSectionsList.mk 0 0 []).push (MDoc.mk [3, 5] [true, true]) 0
          SC_PERFORMED_USER 0 1).1.pop
        ((DeletedSectionsList.mk 0 0 []).push (MDoc.mk [3, 5] [true, true]) 0
          SC_PERFORMED_USER 0 1).2 100 (invertAction SC_PERFORMED_USER) 0).2.markers.getD j 0 =
        (MDoc.mk [3, 5] [true, true]).markers.getD j 0) := by
  have h := C1_round_trip_restores_markers (DeletedSectionsList.mk 0 0 [])
    (MDoc.mk [3, 5] [true, true]) SC_PERFORMED_USER 0 1 0 100
    (by decide) (by decide) (by decide)
    (by
      intro j hj1 hj2
      have hj : j = 0 ∨ j = 1 := by omega
      rcases hj with hj | hj <;> subst hj <;> decide)
  exact ⟨by decide, h.1, h.2.1, h.2.2⟩

/-! ### Claim C2 -/

/-- C2, counterexample to the claim as stated.  The claim says a successful
`push` "clears the markers of every line in the range [startLine, endLine]".
In the code the capture loop skips the clearing step exactly when
`line == endLine`, so a `push(USER, 0, 1)` over a document whose lines 0 and 1
both carry marker bit 0 pushes a record (the stack gains one entry) and clears
line 0, but leaves line 1 (= `endLine`) with its marker still set. -/
theorem C2_cex :
    (((DeletedSectionsList.mk 0 0 []).push (MDoc.mk [1, 1] [false, false]) 0
        SC_PERFORMED_USER 0 1).1.sections.length = 1) ∧
    (((DeletedSectionsList.mk 0 0 []).push (MDoc.mk [1, 1] [false, false]) 0
        SC_PERFORMED_USER 0 1).2.markers.getD 1 0 = 1) ∧
    (1 : Nat) ≠ 0 := by
  decide

/-- C2 (amended): for every call `DeletedSectionsList::push(currAction,
startLine, endLine)` with `endLine > startLine`, `skipPush` zero and no
suppressing line-replace record on top, the push captures into the new record
the `MARKER_MASK_ALL`-masked marker bitset of every line in
`[startLine, endLine]` that carries a `MARKER_MASK_LINE` marker (all other
entries are zero), clears the plugin markers of every such line *except*
`endLine` itself, clears the "changed" indicator over the bytes of lines
`[startLine, endLine)`, and pushes the record (recording the push time). -/
theorem C2_push_captures_and_clears (s : DeletedSectionsList) (doc : MDoc)
    (now a sl el : Nat)
    (h1 : sl < el) (h2 : s.skipPush = 0) (h3 : suppressLineReplace s.sections a = false) :
    (s.push doc now a sl el).1.lastPushTimeMark = now ∧
    (∃ rec : DeletedSection,
      (s.push doc now a sl el).1.sections = rec :: s.sections ∧
      rec.startLine = sl ∧ rec.restoreAction = invertAction a ∧ rec.lineReplace = false ∧
      rec.markers.length = el - sl + 1 ∧
      (∀ i : Nat, rec.markers.getD i 0 =
        if sl + i ≤ el ∧ (doc.markers.getD (sl + i) 0) &&& MARKER_MASK_LINE ≠ 0
        then (doc.markers.getD (sl + i) 0) &&& MARKER_MASK_ALL else 0)) ∧
    (∀ j : Nat, (s.push doc now a sl el).2.markers.getD j 0 =
      if sl ≤ j ∧ j ≤ el ∧ j ≠ el ∧ (doc.markers.getD j 0) &&& MARKER_MASK_LINE ≠ 0
      then clearBits (doc.markers.getD j 0) MARKER_MASK_ALL
      else doc.markers.getD j 0) ∧
    (s.push doc now a sl el).2.changed = clearChangedRange doc.changed sl el := by
  obtain ⟨q1, q2, q3, q4, q5, q6⟩ := push_spec s doc now a sl el h1 h2 h3
  exact ⟨q2, q3, q4, q6⟩

theorem C2_witness :
    ((0 : Nat) < 2) ∧
    (((DeletedSectionsList.mk 0 0 []).push (MDoc.mk [3, 0, 7] [true, true, true]) 9
        SC_PERFORMED_USER 0 2).1.lastPushTimeMark = 9 ∧
      (∃ rec : DeletedSection,
        ((DeletedSectionsList.mk 0 0 []).push (MDoc.mk [3, 0, 7] [true, true, true]) 9
          SC_PERFORMED_USER 0 2).1.sections = rec :: ([] : List DeletedSection) ∧
        rec.startLine = 0 ∧ rec.restoreAction = invertAction SC_PERFORMED_USER ∧
        rec.lineReplace = false ∧
        rec.markers.length = 2 - 0 + 1 ∧
        (∀ i : Nat, rec.markers.getD i 0 =
          if 0 + i ≤ 2 ∧
              ((MDoc.mk [3, 0, 7] [true, true, true]).markers.getD (0 + i) 0) &&&
                MARKER_MASK_LINE ≠ 0
          then ((MDoc.mk [3, 0, 7] [true, true, true]).markers.getD (0 + i) 0) &&&
                MARKER_MASK_ALL
          else 0)) ∧
      (∀ j : Nat,
        ((DeletedSectionsList.mk 0 0 []).push (MDoc.mk [3, 0, 7] [true, true, true]) 9
          SC_PERFORMED_USER 0 2).2.markers.getD j 0 =
        if 0 ≤ j ∧ j ≤ 2 ∧ j ≠ 2 ∧
            ((MDoc.mk [3, 0, 7] [true, true, true]).markers.getD j 0) &&&
              MARKER_MASK_LINE ≠ 0
        then clearBits ((MDoc.mk [3, 0, 7] [true, true, true]).markers.getD j 0)
              MARKER_MASK_ALL
        else (MDoc.mk [3, 0, 7] [true, true, true]).markers.getD j 0) ∧
      ((DeletedSectionsList.mk 0 0 []).push (MDoc.mk [3, 0, 7] [true, true, true]) 9
          SC_PERFORMED_USER 0 2).2.changed =
        clearChangedRange (MDoc.mk [3, 0, 7] [true, true, true]).changed 0 2) :=
  ⟨by decide,
   C2_push_captures_and_clears (DeletedSectionsList.mk 0 0 [])
     (MDoc.mk [3, 0, 7] [true, true, true]) 9 SC_PERFORMED_USER 0 2
     (by decide) (by decide) (by decide)⟩

/-! ### Claim C3 -/

/-- C3: line-replace classification.  First conjunct: a `pop` whose action does
not match the top record's restore action but arrives within 40ms of the last
push reclassifies the top record as a line-replace, leaving `skipPush`, the
rest of the stack and the document untouched.  Second conjunct: a `push` whose
action equals the top record's restore action while that record is marked
line-replace is fully suppressed.  Third conjunct: a delete (`push`) followed
within the window by a mismatching insert (`pop`) yields exactly one new
record — reclassified in place — with `skipPush` and the document unchanged by
the `pop`. -/
theorem C3_line_replace_classification :
    (∀ (s : DeletedSectionsList) (doc : MDoc) (now ca l : Nat)
        (r : DeletedSection) (rest : List DeletedSection),
      s.sections = r :: rest → r.restoreAction ≠ ca →
      now < s.lastPushTimeMark + 40 →
      s.pop doc now ca l =
        ({ s with sections := { r with lineReplace := true } :: rest }, doc)) ∧
    (∀ (s : DeletedSectionsList) (doc : MDoc) (now ca sl el : Nat)
        (r : DeletedSection) (rest : List DeletedSection),
      s.sections = r :: rest → r.restoreAction = ca → r.lineReplace = true →
      sl < el → s.skipPush = 0 →
      s.push doc now ca sl el = (s, doc)) ∧
    (∀ (s : DeletedSectionsList) (doc : MDoc) (a a2 sl el l t1 t2 : Nat),
      sl < el → s.skipPush = 0 → suppressLineReplace s.sections a = false →
      a2 ≠ invertAction a → t2 < t1 + 40 →
      (∃ rec : DeletedSection,
        ((s.push doc t1 a sl el).1.pop (s.push doc t1 a sl el).2 t2 a2 l).1.sections =
          rec :: s.sections ∧
        rec.lineReplace = true ∧ rec.startLine = sl ∧
        rec.restoreAction = invertAction a) ∧
      ((s.push doc t1 a sl el).1.pop (s.push doc t1 a sl el).2 t2 a2 l).1.skipPush =
        s.skipPush ∧
      ((s.push doc t1 a sl el).1.pop (s.push doc t1 a sl el).2 t2 a2 l).2 =
        (s.push doc t1 a sl el).2) := by
  refine ⟨?_, ?_, ?_⟩
  · intro s doc now ca l r rest hsec hact htime
    exact pop_mismatch_within s doc now ca l r rest hsec hact htime
  · intro s doc now ca sl el r rest hsec hact hrep hlt hskip
    apply push_suppressed s doc now ca sl el (by omega) hskip
    rw [hsec]
    simp [suppressLineReplace, hact, hrep]
  · intro s doc a a2 sl el l t1 t2 h1 h2 h3 hne htime
    obtain ⟨q1, q2, ⟨rec, hsec, hstart, hact, hrep, hlen, hvals⟩, q4, q5, q6⟩ :=
      push_spec s doc t1 a sl el h1 h2 h3
    have hpop := pop_mismatch_within (s.push doc t1 a sl el).1
      (s.push doc t1 a sl el).2 t2 a2 l rec s.sections hsec
      (by rw [hact]; exact fun h => hne h.symm)
      (by rw [q2]; omega)
    rw [hpop]
    exact ⟨⟨{ rec with lineReplace := true }, rfl, rfl, hstart, hact⟩, q1, rfl⟩

theorem C3_witness :
    ((DeletedSectionsList.mk 0 10 [DeletedSection.mk 2 false SC_PERFORMED_UNDO [3]]).pop
        (MDoc.mk [5] [true]) 20 SC_PERFORMED_REDO 7 =
      ({ DeletedSectionsList.mk 0 10 [DeletedSection.mk 2 false SC_PERFORMED_UNDO [3]] with
          sections := [DeletedSection.mk 2 true SC_PERFORMED_UNDO [3]] },
        MDoc.mk [5] [true])) ∧
    ((DeletedSectionsList.mk 0 0 [DeletedSection.mk 2 true SC_PERFORMED_UNDO [3]]).push
        (MDoc.mk [5] [true]) 0 SC_PERFORMED_UNDO 1 3 =
      (DeletedSectionsList.mk 0 0 [DeletedSection.mk 2 true SC_PERFORMED_UNDO [3]],
        MDoc.mk [5] [true])) ∧
    ((∃ rec : DeletedSection,
        (((DeletedSectionsList.mk 0 0 []).push (MDoc.mk [1] [true]) 0
            SC_PERFORMED_USER 0 1).1.pop
          ((DeletedSectionsList.mk 0 0 []).push (MDoc.mk [1] [true]) 0
            SC_PERFORMED_USER 0 1).2 10 SC_PERFORMED_USER 0).1.sections =
          rec :: ([] : List DeletedSection) ∧
        rec.lineReplace = true ∧ rec.startLine = 0 ∧
        rec.restoreAction = invertAction SC_PERFORMED_USER) ∧
      (((DeletedSectionsList.mk 0 0 []).push (MDoc.mk [1] [true]) 0
          SC_PERFORMED_USER 0 1).1.pop
        ((DeletedSectionsList.mk 0 0 []).push (MDoc.mk [1] [true]) 0
          SC_PERFORMED_USER 0 1).2 10 SC_PERFORMED_USER 0).1.skipPush = 0 ∧
      (((DeletedSectionsList.mk 0 0 []).push (MDoc.mk [1] [true]) 0
          SC_PERFORMED_USER 0 1).1.pop
        ((DeletedSectionsList.mk 0 0 []).push (MDoc.mk [1] [true]) 0
          SC_PERFORMED_USER 0 1).2 10 SC_PERFORMED_USER 0).2 =
        ((DeletedSectionsList.mk 0 0 []).push (MDoc.mk [1] [true]) 0
          SC_PERFORMED_USER 0 1).2) :=
  ⟨C3_line_replace_classification.1 _ _ 20 SC_PERFORMED_REDO 7 _ [] rfl (by decide) (by decide),
   C3_line_replace_classification.2.1 _ _ 0 SC_PERFORMED_UNDO 1 3 _ [] rfl (by decide)
     (by decide) (by decide) (by decide),
   C3_line_replace_classification.2.2 _ _ SC_PERFORMED_USER SC_PERFORMED_USER 0 1 0 0 10
     (by decide) (by decide) (by decide) (by decide) (by decide)⟩

/-! ### Claim C4 -/

/-- C4: skip-counter and no-op handling of unmatched history operations:
a `pop` on an empty stack only increments `skipPush`; a mismatching `pop`
outside the 40ms window only increments `skipPush`; a multi-line `push`
arriving while `skipPush` is positive only decrements it (no record, no marker
change); and a correctly-actioned `pop` at the wrong start line is a complete
no-op. -/
theorem C4_skip_counter_no_ops :
    (∀ (s : DeletedSectionsList) (doc : MDoc) (now ca l : Nat),
      s.sections = [] →
      s.pop doc now ca l = ({ s with skipPush := s.skipPush + 1 }, doc)) ∧
    (∀ (s : DeletedSectionsList) (doc : MDoc) (now ca l : Nat)
        (r : DeletedSection) (rest : List DeletedSection),
      s.sections = r :: rest → r.restoreAction ≠ ca →
      ¬ now < s.lastPushTimeMark + 40 →
      s.pop doc now ca l = ({ s with skipPush := s.skipPush + 1 }, doc)) ∧
    (∀ (s : DeletedSectionsList) (doc : MDoc) (now ca sl el : Nat),
      sl < el → s.skipPush ≠ 0 →
      s.push doc now ca sl el = ({ s with skipPush := s.skipPush - 1 }, doc)) ∧
    (∀ (s : DeletedSectionsList) (doc : MDoc) (now ca l : Nat)
        (r : DeletedSection) (rest : List DeletedSection),
      s.sections = r :: rest → r.restoreAction = ca → r.startLine ≠ l →
      s.pop doc now ca l = (s, doc)) := by
  refine ⟨?_, ?_, ?_, ?_⟩
  · intro s doc now ca l h
    exact pop_empty s doc now ca l h
  · intro s doc now ca l r rest hsec hact htime
    exact pop_mismatch_outside s doc now ca l r rest hsec hact htime
  · intro s doc now ca sl el hlt hskip
    exact push_skip s doc now ca sl el (by omega) hskip
  · intro s doc now ca l r rest hsec hact hline
    exact pop_wrong_line s doc now ca l r rest hsec hact hline

theorem C4_witness :
    ((DeletedSectionsList.mk 3 7 []).pop (MDoc.mk [9] [false]) 50 SC_PERFORMED_UNDO 4 =
      ({ DeletedSectionsList.mk 3 7 [] with skipPush := 3 + 1 }, MDoc.mk [9] [false])) ∧
    ((DeletedSectionsList.mk 0 7 [DeletedSection.mk 1 false SC_PERFORMED_UNDO [2]]).pop
        (MDoc.mk [9] [false]) 100 SC_PERFORMED_REDO 1 =
      ({ DeletedSectionsList.mk 0 7 [DeletedSection.mk 1 false SC_PERFORMED_UNDO [2]] with
          skipPush := 0 + 1 }, MDoc.mk [9] [false])) ∧
    ((DeletedSectionsList.mk 2 0 []).push (MDoc.mk [9] [false]) 0 SC_PERFORMED_USER 0 4 =
      ({ DeletedSectionsList.mk 2 0 [] with skipPush := 2 - 1 }, MDoc.mk [9] [false])) ∧
    ((DeletedSectionsList.mk 0 7 [DeletedSection.mk 1 false SC_PERFORMED_UNDO [2]]).pop
        (MDoc.mk [9] [false]) 100 SC_PERFORMED_UNDO 5 =
      (DeletedSectionsList.mk 0 7 [DeletedSection.mk 1 false SC_PERFORMED_UNDO [2]],
        MDoc.mk [9] [false])) :=
  ⟨C4_skip_counter_no_ops.1 _ _ 50 SC_PERFORMED_UNDO 4 rfl,
   C4_skip_counter_no_ops.2.1 _ _ 100 SC_PERFORMED_REDO 1 _ [] rfl (by decide) (by decide),
   C4_skip_counter_no_ops.2.2.1 _ _ 0 SC_PERFORMED_USER 0 4 (by decide) (by decide),
   C4_skip_counter_no_ops.2.2.2 _ _ 100 SC_PERFORMED_UNDO 5 _ [] rfl (by decide) (by decide)⟩

/-! ### Claim C10 -/

/-- C10: every `DeletedSection` created from a deletion whose action is
anything other than `SC_PERFORMED_UNDO` (in particular an ordinary
`SC_PERFORMED_USER` deletion) gets restore action `SC_PERFORMED_UNDO`; only an
undo-caused deletion gets `SC_PERFORMED_REDO`.  Consequently `pop` touches the
document (replays saved markers) only when its action equals the top record's
restore action and its start line equals the record's start line. -/
theorem C10_restore_action_parity :
    (∀ action line len : Nat, action ≠ SC_PERFORMED_UNDO →
      (DeletedSection.make action line len).restoreAction = SC_PERFORMED_UNDO) ∧
    (∀ line len : Nat,
      (DeletedSection.make SC_PERFORMED_UNDO line len).restoreAction = SC_PERFORMED_REDO) ∧
    (∀ (s : DeletedSectionsList) (doc : MDoc) (now ca l : Nat)
        (r : DeletedSection) (rest : List DeletedSection),
      s.sections = r :: rest →
      (ca ≠ r.restoreAction ∨ l ≠ r.startLine) →
      (s.pop doc now ca l).2 = doc) := by
  refine ⟨?_, ?_, ?_⟩
  · intro action line len h
    simp [DeletedSection.make, invertAction, h]
  · intro line len
    simp [DeletedSection.make, invertAction]
  · intro s doc now ca l r rest hsec hmis
    by_cases hact : r.restoreAction = ca
    · have hline : r.startLine ≠ l := by
        rcases hmis with h | h
        · exact absurd hact.symm h
        · exact fun hc => h (hc.symm)
      rw [pop_wrong_line s doc now ca l r rest hsec hact hline]
    · by_cases htime : now < s.lastPushTimeMark + 40
      · rw [pop_mismatch_within s doc now ca l r rest hsec hact htime]
      · rw [pop_mismatch_outside s doc now ca l r rest hsec hact htime]

theorem C10_witness :
    ((DeletedSection.make SC_PERFORMED_USER 4 2).restoreAction = SC_PERFORMED_UNDO) ∧
    ((DeletedSection.make SC_PERFORMED_UNDO 4 2).restoreAction = SC_PERFORMED_REDO) ∧
    (((DeletedSectionsList.mk 0 0 [DeletedSection.mk 4 false SC_PERFORMED_UNDO [6]]).pop
        (MDoc.mk [6] [true]) 99 SC_PERFORMED_UNDO 9).2 = MDoc.mk [6] [true]) :=
  ⟨C10_restore_action_parity.1 SC_PERFORMED_USER 4 2 (by decide),
   C10_restore_action_parity.2.1 4 2,
   C10_restore_action_parity.2.2 _ _ 99 SC_PERFORMED_UNDO 9 _ [] rfl (Or.inr (by decide))⟩

/-! ### Alignment engine (`isAlignmentNeeded`, `alignDiffs`)

An alignment record pairs one line (with its diff mask) in each view.
`SCI_VISIBLEFROMDOCLINE` with all folds expanded is a document line plus the
padding (blank annotation) lines attached below earlier lines; the per-line
annotation counts of the two views are the mutable state of `alignDiffs`. -/

structure AlignmentViewData where
  line : Nat
  diffMask : Nat
deriving Repr, DecidableEq

structure AlignmentPair where
  main : AlignmentViewData
  sub : AlignmentViewData
deriving Repr, DecidableEq

/-- `(alignment.*pView).line`: the scanned view's line of a record. -/
def viewLine (useMain : Bool) (a : AlignmentPair) : Nat :=
  if useMain then a.main.line else a.sub.line

/-- `isAlignmentNeeded(view, alignmentInfo)`.  `useMain` selects the view
whose line drives the scan; `firstLine`/`lastLine` are the viewport bounds the
code reads from the host (`SCI_DOCLINEFROMVISIBLE` of the first visible line,
resp. of first visible + lines on screen); `visMain`/`visSub` model
`SCI_VISIBLEFROMDOCLINE` of each view. -/
def isAlignmentNeeded (useMain : Bool) (firstLine lastLine : Int)
    (visMain visSub : Nat → Int) : List AlignmentPair → Bool
  | [] => false
  | a :: rest =>
    if firstLine ≤ (viewLine useMain a : Int) ∧
        a.main.diffMask = a.sub.diffMask ∧ visMain a.main.line ≠ visSub a.sub.line
    then true
    else if lastLine < (viewLine useMain a : Int) then false
    else isAlignmentNeeded useMain firstLine lastLine visMain visSub rest

/-- C6, counterexample to the claim as stated.  The loop's body examines a
record *before* testing whether its line is already past `lastLine` and
breaking, so the first record beyond the viewport is still examined: a single
alignment record whose line (50) lies past `lastLine` (10), with equal diff
masks and differing visible positions, makes `isAlignmentNeeded` return true
even though no record within the claimed range exists. -/
theorem C6_cex :
    (isAlignmentNeeded true 0 10 (fun n => (n : Int)) (fun n => (n : Int) + 1)
      [AlignmentPair.mk (AlignmentViewData.mk 50 2) (AlignmentViewData.mk 50 2)] = true) ∧
    ((10 : Int) <
      (viewLine true (AlignmentPair.mk (AlignmentViewData.mk 50 2)
        (AlignmentViewData.mk 50 2)) : Int)) := by
  decide

/-- C6 (amended): `isAlignmentNeeded` examines the alignment records up to and
*including* the first record whose line on the scanned view lies past
`lastLine` (all earlier records have line at most `lastLine`), and returns
true exactly when some record in that examined prefix has line at least
`firstLine`, equal diff masks on the two sides, and differing visible
(fold-translated) line positions in the two views. -/
theorem C6_isAlignmentNeeded_characterization (useMain : Bool) (firstLine lastLine : Int)
    (visMain visSub : Nat → Int) (al : List AlignmentPair) :
    isAlignmentNeeded useMain firstLine lastLine visMain visSub al = true ↔
    ∃ pre a post, al = pre ++ a :: post ∧
      (∀ b ∈ pre, (viewLine useMain b : Int) ≤ lastLine) ∧
      firstLine ≤ (viewLine useMain a : Int) ∧
      a.main.diffMask = a.sub.diffMask ∧
      visMain a.main.line ≠ visSub a.sub.line := by
  induction al with
  | nil =>
    simp only [isAlignmentNeeded]
    constructor
    · intro h
      simp at h
    · rintro ⟨pre, a, post, heq, -⟩
      exact absurd heq (by simp)
  | cons a0 rest ih =>
    by_cases hC1 : firstLine ≤ (viewLine useMain a0 : Int) ∧
        a0.main.diffMask = a0.sub.diffMask ∧ visMain a0.main.line ≠ visSub a0.sub.line
    · constructor
      · intro _
        exact ⟨[], a0, rest, rfl, by simp, hC1.1, hC1.2.1, hC1.2.2⟩
      · intro _
        simp only [isAlignmentNeeded, if_pos hC1]
    · by_cases hC2 : lastLine < (viewLine useMain a0 : Int)
      · simp only [isAlignmentNeeded, if_neg hC1, if_pos hC2]
        constructor
        · intro h
          simp at h
        · rintro ⟨pre, a, post, heq, hpre, htrig⟩
          exfalso
          match pre, heq, hpre with
          | [], heq, hpre =>
            rw [List.nil_append] at heq
            obtain ⟨ha, -⟩ := List.cons.inj heq
            subst ha
            exact hC1 htrig
          | b :: pre2, heq, hpre =>
            rw [List.cons_append] at heq
            obtain ⟨hb, -⟩ := List.cons.inj heq
            subst hb
            exact absurd (hpre a0 (by simp)) (by omega)
      · simp only [isAlignmentNeeded, if_neg hC1, if_neg hC2]
        rw [ih]
        constructor
        · rintro ⟨pre, a, post, heq, hpre, htrig⟩
          refine ⟨a0 :: pre, a, post, by rw [heq, List.cons_append], ?_, htrig⟩
          intro b hb
          rcases List.mem_cons.mp hb with hb | hb
          · subst hb
            omega
          · exact hpre b hb
        · rintro ⟨pre, a, post, heq, hpre, htrig⟩
          match pre, heq, hpre with
          | [], heq, hpre =>
            rw [List.nil_append] at heq
            obtain ⟨ha, -⟩ := List.cons.inj heq
            subst ha
            exact absurd htrig hC1
          | b :: pre2, heq, hpre =>
            rw [List.cons_append] at heq
            obtain ⟨hb, hrest⟩ := List.cons.inj heq
            exact ⟨pre2, a, post, hrest, fun c hc => hpre c (by simp [hc]), htrig⟩

/-! ### `alignDiffs` -/

inductive PadSide where
  | mainView
  | subView
deriving Repr, DecidableEq

/-- A call to `addBlankSection(view, line, len)` recorded in the trace. -/
structure PadEvent where
  side : PadSide
  line : Nat
  size : Nat
deriving Repr, DecidableEq

structure AlignState where
  annotMain : List Nat
  annotSub : List Nat
  events : List PadEvent
deriving Repr, DecidableEq

/-- `SCI_VISIBLEFROMDOCLINE` with all folds expanded (the code expands them
first): a document line's visible position is its line number plus the
padding (blank annotation) lines attached below all earlier lines. -/
def visibleFromDocLine (annot : List Nat) (docLine : Nat) : Nat :=
  docLine + (annot.take docLine).sum

/-- `addBlankSection` of NppHelpers, modelled from the spec: inserts `len`
padding (blank) lines immediately above document line `line`, realized as an
annotation below line `line - 1` (for line 0 there is no predecessor line to
carry it). -/
def addBlankSection (annot : List Nat) (line len : Nat) : List Nat :=
  if line = 0 then annot else annot.set (line - 1) len

/-- The stale-padding clearing step of `alignDiffs`:
`if (line && SCI_ANNOTATIONGETLINES(line - 1)) SCI_ANNOTATIONSETTEXT(line - 1, NULL)`. -/
def clearStaleAnnot (annot : List Nat) (line : Nat) : List Nat :=
  if line ≠ 0 ∧ annot.getD (line - 1) 0 ≠ 0 then annot.set (line - 1) 0 else annot

/-- One iteration of the alignment loop of `alignDiffs`, for the current
record `cur` with lookahead `nxt` (= `alignmentInfo[i + 1]` when it exists).
Emitted `addBlankSection` calls are appended to the event trace. -/
def alignStep (st : AlignState) (cur : AlignmentPair) (nxt : Option AlignmentPair) : AlignState :=
  let am := clearStaleAnnot st.annotMain cur.main.line
  let asb := clearStaleAnnot st.annotSub cur.sub.line
  let mismatchLen : Int :=
    (visibleFromDocLine am cur.main.line : Int) - (visibleFromDocLine asb cur.sub.line : Int)
  if 0 < mismatchLen then
    if (match nxt with
        | some n => n.sub.line == cur.sub.line
        | none => false) then
      { annotMain := am, annotSub := asb, events := st.events }
    else
      { annotMain := am, annotSub := addBlankSection asb cur.sub.line mismatchLen.toNat,
        events := st.events ++ [PadEvent.mk PadSide.subView cur.sub.line mismatchLen.toNat] }
  else if mismatchLen < 0 then
    if (match nxt with
        | some n => n.main.line == cur.main.line
        | none => false) then
      { annotMain := am, annotSub := asb, events := st.events }
    else
      { annotMain := addBlankSection am cur.main.line (-mismatchLen).toNat, annotSub := asb,
        events := st.events ++ [PadEvent.mk PadSide.mainView cur.main.line (-mismatchLen).toNat] }
  else
    { annotMain := am, annotSub := asb, events := st.events }

/-- The alignment loop of `alignDiffs`: walk the records in order while the
current record's lines are inside both documents. -/
def alignLoop (mainEnd subEnd : Nat) : AlignState → List AlignmentPair → AlignState
  | st, [] => st
  | st, cur :: rest =>
    if cur.main.line ≤ mainEnd ∧ cur.sub.line ≤ subEnd then
      alignLoop mainEnd subEnd (alignStep st cur rest.head?) rest
    else st

/-- `alignDiffs(alignmentInfo)` on documents with the given line counts and
per-line annotation (padding) state. -/
def alignDiffs (mainLineCount subLineCount : Nat) (annotMain annotSub : List Nat)
    (alignmentInfo : List AlignmentPair) : AlignState :=
  alignLoop (mainLineCount - 1) (subLineCount - 1)
    (AlignState.mk annotMain annotSub []) alignmentInfo

/-- The record line on one side. -/
def sideLine (side : PadSide) (p : AlignmentPair) : Nat :=
  match side with
  | PadSide.mainView => p.main.line
  | PadSide.subView => p.sub.line

/-- Number of `addBlankSection` calls on a given side at a given line. -/
def padCount (side : PadSide) (line : Nat) (evs : List PadEvent) : Nat :=
  (evs.filter (fun e => e.side == side && e.line == line)).length

theorem alignStep_events (st : AlignState) (cur : AlignmentPair) (nxt : Option AlignmentPair) :
    (alignStep st cur nxt).events = st.events ∨
    (∃ len, (alignStep st cur nxt).events =
        st.events ++ [PadEvent.mk PadSide.subView cur.sub.line len] ∧
      (∀ n, nxt = some n → n.sub.line ≠ cur.sub.line)) ∨
    (∃ len, (alignStep st cur nxt).events =
        st.events ++ [PadEvent.mk PadSide.mainView cur.main.line len] ∧
      (∀ n, nxt = some n → n.main.line ≠ cur.main.line)) := by
  simp only [alignStep]
  split
  · split
    · left
      rfl
    · next hnxt =>
      right
      left
      refine ⟨_, rfl, ?_⟩
      intro n hn hsame
      apply hnxt
      subst hn
      simp [hsame]
  · split
    · split
      · left
        rfl
      · next hnxt =>
        right
        right
        refine ⟨_, rfl, ?_⟩
        intro n hn hsame
        apply hnxt
        subst hn
        simp [hsame]
    · left
      rfl

theorem padCount_append_single (s : PadSide) (L : Nat) (evs : List PadEvent) (e : PadEvent) :
    padCount s L (evs ++ [e]) =
      padCount s L evs + (if e.side = s ∧ e.line = L then 1 else 0) := by
  unfold padCount
  rw [List.filter_append, List.length_append]
  congr 1
  by_cases hc : e.side = s ∧ e.line = L
  · rw [if_pos hc]
    simp [List.filter, hc.1, hc.2]
  · rw [if_neg hc]
    have : (e.side == s && e.line == L) = false := by
      rcases Decidable.not_and_iff_or_not.mp hc with h | h <;> simp [h]
    simp [List.filter, this]

theorem alignStep_padCount_le (s : PadSide) (L : Nat) (st : AlignState)
    (cur : AlignmentPair) (nxt : Option AlignmentPair) :
    padCount s L (alignStep st cur nxt).events ≤ padCount s L st.events + 1 := by
  rcases alignStep_events st cur nxt with h | ⟨len, h, -⟩ | ⟨len, h, -⟩ <;>
    rw [h]
  · omega
  · rw [padCount_append_single]
    split <;> omega
  · rw [padCount_append_single]
    split <;> omega

theorem alignStep_padCount_of_ne (s : PadSide) (L : Nat) (st : AlignState)
    (cur : AlignmentPair) (nxt : Option AlignmentPair) (h : sideLine s cur ≠ L) :
    padCount s L (alignStep st cur nxt).events = padCount s L st.events := by
  rcases alignStep_events st cur nxt with he | ⟨len, he, -⟩ | ⟨len, he, -⟩ <;> rw [he]
  · rw [padCount_append_single, if_neg]
    · omega
    · rintro ⟨hs, hl⟩
      cases s <;> simp_all [sideLine]
  · rw [padCount_append_single, if_neg]
    · omega
    · rintro ⟨hs, hl⟩
      cases s <;> simp_all [sideLine]

theorem alignStep_padCount_of_next_same (s : PadSide) (L : Nat) (st : AlignState)
    (cur n : AlignmentPair) (h : sideLine s n = sideLine s cur) :
    padCount s L (alignStep st cur (some n)).events = padCount s L st.events := by
  rcases alignStep_events st cur (some n) with he | ⟨len, he, hne⟩ | ⟨len, he, hne⟩ <;> rw [he]
  · rw [padCount_append_single, if_neg]
    · omega
    · rintro ⟨hs, -⟩
      cases s
      · exact absurd hs (by simp)
      · exact hne n rfl (by simpa [sideLine] using h)
  · rw [padCount_append_single, if_neg]
    · omega
    · rintro ⟨hs, -⟩
      cases s
      · exact hne n rfl (by simpa [sideLine] using h)
      · exact absurd hs (by simp)

theorem alignLoop_padCount (me se : Nat) (s : PadSide) (L : Nat) :
    ∀ (al : List AlignmentPair) (st : AlignState),
    List.Pairwise (fun p q => sideLine s p ≤ sideLine s q) al →
    padCount s L (alignLoop me se st al).events ≤
      padCount s L st.events + (if al.any (fun p => sideLine s p == L) then 1 else 0) := by
  intro al
  induction al with
  | nil =>
    intro st hsorted
    simp only [alignLoop]
    split <;> omega
  | cons cur rest ih =>
    intro st hsorted
    simp only [alignLoop]
    split
    · -- the record is processed
      by_cases hcl : sideLine s cur = L
      · have hal : (cur :: rest).any (fun p => sideLine s p == L) = true := by
          simp [List.any_cons, hcl]
        rw [hal, if_pos rfl]
        cases rest with
        | nil =>
          simp only [alignLoop]
          exact alignStep_padCount_le s L st cur _
        | cons n rest2 =>
          have ihr := ih (alignStep st cur (n :: rest2).head?) (List.Pairwise.of_cons hsorted)
          simp only [List.head?_cons] at ihr ⊢
          by_cases hn : sideLine s n = sideLine s cur
          · rw [alignStep_padCount_of_next_same s L st cur n hn] at ihr
            have hany : (n :: rest2).any (fun p => sideLine s p == L) = true := by
              simp [List.any_cons, hn, hcl]
            rw [hany, if_pos rfl] at ihr
            omega
          · -- the lookahead has a different line: everything after is past L
            have hany : (n :: rest2).any (fun p => sideLine s p == L) = false := by
              simp only [List.any_eq_false]
              intro p hp
              simp only [beq_iff_eq]
              have hcn : sideLine s cur ≤ sideLine s n :=
                (List.pairwise_cons.mp hsorted).1 n (by simp)
              have hnp : sideLine s n ≤ sideLine s p := by
                rcases List.mem_cons.mp hp with hp1 | hp1
                · subst hp1
                  exact le_refl _
                · exact (List.pairwise_cons.mp (List.Pairwise.of_cons hsorted)).1 p hp1
              omega
            rw [hany, if_neg (by simp)] at ihr
            have hle := alignStep_padCount_le s L st cur (some n)
            omega
      · -- current record is not at line L on side s: no event at (s, L)
        have ihr := ih (alignStep st cur rest.head?) (List.Pairwise.of_cons hsorted)
        rw [alignStep_padCount_of_ne s L st cur rest.head? hcl] at ihr
        have hal : (cur :: rest).any (fun p => sideLine s p == L) =
            rest.any (fun p => sideLine s p == L) := by
          simp [List.any_cons, hcl]
        rw [hal]
        exact ihr
    · omega

/-- C5: alignment non-duplication.  With the alignment sequence non-decreasing
on each side (the documented invariant of alignment records), a full run of
`alignDiffs` emits at most one `addBlankSection` call per side and target
line — in particular at most one for a run of consecutive records sharing
that side's line.  Moreover a record whose successor shares its line on one
side never emits padding on that side (padding is only added after the last
record of the run). -/
theorem C5_alignDiffs_pads_once (mc sc : Nat) (am asb : List Nat) (al : List AlignmentPair)
    (hmain : List.Pairwise (fun p q => p.main.line ≤ q.main.line) al)
    (hsub : List.Pairwise (fun p q => p.sub.line ≤ q.sub.line) al) :
    (∀ L : Nat, padCount PadSide.subView L (alignDiffs mc sc am asb al).events ≤ 1) ∧
    (∀ L : Nat, padCount PadSide.mainView L (alignDiffs mc sc am asb al).events ≤ 1) ∧
    (∀ (st : AlignState) (cur n : AlignmentPair), n.sub.line = cur.sub.line →
      ∀ e ∈ (alignStep st cur (some n)).events, e.side = PadSide.subView → e ∈ st.events) ∧
    (∀ (st : AlignState) (cur n : AlignmentPair), n.main.line = cur.main.line →
      ∀ e ∈ (alignStep st cur (some n)).events, e.side = PadSide.mainView → e ∈ st.events) := by
  refine ⟨?_, ?_, ?_, ?_⟩
  · intro L
    have h := alignLoop_padCount (mc - 1) (sc - 1) PadSide.subView L al
      (AlignState.mk am asb []) hsub
    have h0 : padCount PadSide.subView L (AlignState.mk am asb []).events = 0 := rfl
    rw [h0] at h
    unfold alignDiffs
    split at h <;> omega
  · intro L
    have h := alignLoop_padCount (mc - 1) (sc - 1) PadSide.mainView L al
      (AlignState.mk am asb []) hmain
    have h0 : padCount PadSide.mainView L (AlignState.mk am asb []).events = 0 := rfl
    rw [h0] at h
    unfold alignDiffs
    split at h <;> omega
  · intro st cur n hsame e he hside
    rcases alignStep_events st cur (some n) with hev | ⟨len, hev, hne⟩ | ⟨len, hev, hne⟩
    · rwa [hev] at he
    · exact absurd hsame (hne n rfl)
    · rw [hev] at he
      rcases List.mem_append.mp he with h | h
      · exact h
      · simp only [List.mem_singleton] at h
        subst h
        exact absurd hside (by simp)
  · intro st cur n hsame e he hside
    rcases alignStep_events st cur (some n) with hev | ⟨len, hev, hne⟩ | ⟨len, hev, hne⟩
    · rwa [hev] at he
    · rw [hev] at he
      rcases List.mem_append.mp he with h | h
      · exact h
      · simp only [List.mem_singleton] at h
        subst h
        exact absurd hside (by simp)
    · exact absurd hsame (hne n rfl)

theorem C5_witness :
    (List.Pairwise (fun p q => p.main.line ≤ q.main.line)
      [AlignmentPair.mk (AlignmentViewData.mk 0 1) (AlignmentViewData.mk 2 1),
       AlignmentPair.mk (AlignmentViewData.mk 3 1) (AlignmentViewData.mk 2 1),
       AlignmentPair.mk (AlignmentViewData.mk 5 0) (AlignmentViewData.mk 6 0)]) ∧
    (∀ L : Nat, padCount PadSide.subView L
      (alignDiffs 9 9 [0, 0, 0, 0, 0, 0, 0, 0, 0] [0, 0, 0, 0, 0, 0, 0, 0, 0]
        [AlignmentPair.mk (AlignmentViewData.mk 0 1) (AlignmentViewData.mk 2 1),
         AlignmentPair.mk (AlignmentViewData.mk 3 1) (AlignmentViewData.mk 2 1),
         AlignmentPair.mk (AlignmentViewData.mk 5 0) (AlignmentViewData.mk 6 0)]).events ≤ 1) := by
  have h := C5_alignDiffs_pads_once 9 9 [0, 0, 0, 0, 0, 0, 0, 0, 0] [0, 0, 0, 0, 0, 0, 0, 0, 0]
    [AlignmentPair.mk (AlignmentViewData.mk 0 1) (AlignmentViewData.mk 2 1),
     AlignmentPair.mk (AlignmentViewData.mk 3 1) (AlignmentViewData.mk 2 1),
     AlignmentPair.mk (AlignmentViewData.mk 5 0) (AlignmentViewData.mk 6 0)]
    (by decide) (by decide)
  exact ⟨by decide, h.1⟩

/-! ### Incremental update scheduler (`DelayedUpdate`, `onSciModifiedUpdate`) -/

/-- The `delayedUpdate` slot.  `pending` models the armed state of
`DelayedWork` (modelled from the spec: a delayed action is a cancellable,
coalescing deferred callback; `post` arms it, `cancel` disarms it; the
`operator bool` test reads the armed state). -/
structure DelayedUpdateState where
  pending : Bool
  changePos : Int
  linesAdded : Int
  linesDeleted : Int
  fullCompare : Bool
deriving Repr, DecidableEq

/-- A Scintilla modification notification, as read by the handler. -/
structure SCNotification where
  modificationType : Nat
  position : Int
  linesAdded : Int
deriving Repr, DecidableEq

/-- The position-merging part of `onSciModifiedUpdate`: if no update is
pending, store the notification's position; otherwise cancel the timer and
keep the smaller of the stored and the new position. -/
def delayedUpdateMergePos (du : DelayedUpdateState) (pos : Int) : DelayedUpdateState :=
  if !du.pending then { du with changePos := pos }
  else if du.changePos > pos then { du with pending := false, changePos := pos }
  else { du with pending := false }

/-- The line-delta accumulation of `onSciModifiedUpdate`: an insert adds
`linesAdded`, a delete adds `-linesAdded` to `linesDeleted`. -/
def delayedUpdateAddDelta (du : DelayedUpdateState) (n : SCNotification) : DelayedUpdateState :=
  if n.modificationType &&& SC_MOD_INSERTTEXT ≠ 0 then
    { du with linesAdded := du.linesAdded + n.linesAdded }
  else
    { du with linesDeleted := du.linesDeleted + (- n.linesAdded) }

/-- `onSciModifiedUpdate(notifyCode)`.  `inPair` is whether `getCompare`
found the current buffer's pair; `startLine`/`endLine` are the host's
`SCI_LINEFROMPOSITION` translations of the deleted range, used only by the
before-delete branch.  The returned Bool reports whether that branch cleared
marks. -/
def onSciModifiedUpdate (inPair : Bool) (startLine endLine : Nat)
    (du : DelayedUpdateState) (n : SCNotification) : DelayedUpdateState × Bool :=
  if !inPair then (du, false)
  else if n.modificationType &&& SC_MOD_BEFOREDELETE ≠ 0 then
    (du, decide (startLine < endLine))
  else if n.modificationType &&& (SC_MOD_INSERTTEXT ||| SC_MOD_DELETETEXT) ≠ 0 then
    if du.fullCompare then (du, false)
    else
      ({ delayedUpdateAddDelta (delayedUpdateMergePos du n.position) n with pending := true },
       false)
  else (du, false)

/-- An edit notification handled by the coalescing branch: an insert or
delete of text that is not a before-delete notification. -/
def isEditNotification (n : SCNotification) : Prop :=
  n.modificationType &&& SC_MOD_BEFOREDELETE = 0 ∧
  n.modificationType &&& (SC_MOD_INSERTTEXT ||| SC_MOD_DELETETEXT) ≠ 0

instance (n : SCNotification) : Decidable (isEditNotification n) := by
  unfold isEditNotification
  infer_instance

/-- Lines added by a notification when it is an insert. -/
def insertDelta (n : SCNotification) : Int :=
  if n.modificationType &&& SC_MOD_INSERTTEXT ≠ 0 then n.linesAdded else 0

/-- Lines deleted by a notification when it is a delete. -/
def deleteDelta (n : SCNotification) : Int :=
  if n.modificationType &&& SC_MOD_INSERTTEXT ≠ 0 then 0 else - n.linesAdded

/-- A burst of edit notifications processed in order by the handler. -/
def processBurst (inPair : Bool) (startLine endLine : Nat)
    (du : DelayedUpdateState) (ns : List SCNotification) : DelayedUpdateState :=
  ns.foldl (fun d n => (onSciModifiedUpdate inPair startLine endLine d n).1) du

theorem processBurst_cons (inPair : Bool) (startLine endLine : Nat)
    (du : DelayedUpdateState) (n : SCNotification) (ns : List SCNotification) :
    processBurst inPair startLine endLine du (n :: ns) =
      processBurst inPair startLine endLine
        (onSciModifiedUpdate inPair startLine endLine du n).1 ns := rfl

theorem delayedUpdateMergePos_fields (du : DelayedUpdateState) (pos : Int) :
    (delayedUpdateMergePos du pos).changePos =
      (if du.pending then min du.changePos pos else pos) ∧
    (delayedUpdateMergePos du pos).linesAdded = du.linesAdded ∧
    (delayedUpdateMergePos du pos).linesDeleted = du.linesDeleted ∧
    (delayedUpdateMergePos du pos).fullCompare = du.fullCompare := by
  unfold delayedUpdateMergePos
  by_cases hp : du.pending
  · rw [if_neg (by simp [hp]), if_pos hp]
    by_cases hgt : du.changePos > pos
    · rw [if_pos hgt]
      refine ⟨?_, rfl, rfl, rfl⟩
      show pos = min du.changePos pos
      omega
    · rw [if_neg hgt]
      refine ⟨?_, rfl, rfl, rfl⟩
      show du.changePos = min du.changePos pos
      omega
  · rw [if_pos (by simp [hp]), if_neg hp]
    exact ⟨rfl, rfl, rfl, rfl⟩

theorem onSciModifiedUpdate_step (startLine endLine : Nat) (du : DelayedUpdateState)
    (n : SCNotification) (hfc : du.fullCompare = false) (hgood : isEditNotification n) :
    (onSciModifiedUpdate true startLine endLine du n).1.pending = true ∧
    (onSciModifiedUpdate true startLine endLine du n).1.changePos =
      (if du.pending then min du.changePos n.position else n.position) ∧
    (onSciModifiedUpdate true startLine endLine du n).1.linesAdded =
      du.linesAdded + insertDelta n ∧
    (onSciModifiedUpdate true startLine endLine du n).1.linesDeleted =
      du.linesDeleted + deleteDelta n ∧
    (onSciModifiedUpdate true startLine endLine du n).1.fullCompare = false := by
  obtain ⟨hbd, hins⟩ := hgood
  unfold onSciModifiedUpdate
  rw [if_neg (by simp), if_neg (fun hc => hc hbd), if_pos hins,
    if_neg (by simp [hfc])]
  obtain ⟨m1, m2, m3, m4⟩ := delayedUpdateMergePos_fields du n.position
  unfold delayedUpdateAddDelta
  by_cases hi : n.modificationType &&& SC_MOD_INSERTTEXT ≠ 0
  · rw [if_pos hi]
    exact ⟨rfl, m1, by rw [m2]; simp [insertDelta, hi],
      by rw [m3]; simp [deleteDelta, hi], by rw [m4, hfc]⟩
  · rw [if_neg hi]
    exact ⟨rfl, m1, by rw [m2]; simp [insertDelta, hi],
      by rw [m3]; simp [deleteDelta, hi], by rw [m4, hfc]⟩

theorem processBurst_from_pending (startLine endLine : Nat) :
    ∀ (ns : List SCNotification) (du : DelayedUpdateState),
    du.pending = true → du.fullCompare = false →
    (∀ n ∈ ns, isEditNotification n) →
    (processBurst true startLine endLine du ns).pending = true ∧
    (processBurst true startLine endLine du ns).changePos =
      ns.foldl (fun acc n => min acc n.position) du.changePos ∧
    (processBurst true startLine endLine du ns).linesAdded =
      du.linesAdded + (ns.map insertDelta).sum ∧
    (processBurst true startLine endLine du ns).linesDeleted =
      du.linesDeleted + (ns.map deleteDelta).sum ∧
    (processBurst true startLine endLine du ns).fullCompare = false := by
  intro ns
  induction ns with
  | nil =>
    intro du hp hfc hgood
    exact ⟨hp, rfl, by simp [processBurst], by simp [processBurst], hfc⟩
  | cons n rest ih =>
    intro du hp hfc hgood
    obtain ⟨s1, s2, s3, s4, s5⟩ :=
      onSciModifiedUpdate_step startLine endLine du n hfc (hgood n (by simp))
    rw [if_pos hp] at s2
    obtain ⟨r1, r2, r3, r4, r5⟩ := ih (onSciModifiedUpdate true startLine endLine du n).1
      s1 s5 (fun m hm => hgood m (by simp [hm]))
    refine ⟨by rw [processBurst_cons]; exact r1, ?_, ?_, ?_,
      by rw [processBurst_cons]; exact r5⟩
    · rw [processBurst_cons, r2, s2]
      simp only [List.foldl_cons]
    · rw [processBurst_cons, r3, s3]
      simp only [List.map_cons, List.sum_cons]
      omega
    · rw [processBurst_cons, r4, s4]
      simp only [List.map_cons, List.sum_cons]
      omega

/-- C7: incremental-update coalescing.  First conjunct: an edit notification
arriving while an update is pending (and no full re-compare requested) leaves
the timer armed (cancelled and re-posted), adds the notification's line
deltas to the pending counters, and keeps the minimum of the stored and new
positions.  Second conjunct: a whole burst of edit notifications starting
from an idle slot with zeroed counters ends pending, with the earliest change
position seen and the sums of all inserted and deleted line counts. -/
theorem C7_delayed_update_coalescing :
    (∀ (startLine endLine : Nat) (du : DelayedUpdateState) (n : SCNotification),
      du.pending = true → du.fullCompare = false → isEditNotification n →
      (onSciModifiedUpdate true startLine endLine du n).1.pending = true ∧
      (onSciModifiedUpdate true startLine endLine du n).1.changePos =
        min du.changePos n.position ∧
      (onSciModifiedUpdate true startLine endLine du n).1.linesAdded =
        du.linesAdded + insertDelta n ∧
      (onSciModifiedUpdate true startLine endLine du n).1.linesDeleted =
        du.linesDeleted + deleteDelta n) ∧
    (∀ (startLine endLine : Nat) (du : DelayedUpdateState)
        (n0 : SCNotification) (rest : List SCNotification),
      du.pending = false → du.fullCompare = false →
      du.linesAdded = 0 → du.linesDeleted = 0 →
      (∀ n ∈ n0 :: rest, isEditNotification n) →
      (processBurst true startLine endLine du (n0 :: rest)).pending = true ∧
      (processBurst true startLine endLine du (n0 :: rest)).changePos =
        rest.foldl (fun acc n => min acc n.position) n0.position ∧
      (processBurst true startLine endLine du (n0 :: rest)).linesAdded =
        ((n0 :: rest).map insertDelta).sum ∧
      (processBurst true startLine endLine du (n0 :: rest)).linesDeleted =
        ((n0 :: rest).map deleteDelta).sum) := by
  constructor
  · intro startLine endLine du n hp hfc hgood
    obtain ⟨s1, s2, s3, s4, -⟩ := onSciModifiedUpdate_step startLine endLine du n hfc hgood
    rw [if_pos hp] at s2
    exact ⟨s1, s2, s3, s4⟩
  · intro startLine endLine du n0 rest hp hfc ha hd hgood
    obtain ⟨s1, s2, s3, s4, s5⟩ :=
      onSciModifiedUpdate_step startLine endLine du n0 hfc (hgood n0 (by simp))
    rw [if_neg (by simp [hp])] at s2
    obtain ⟨r1, r2, r3, r4, -⟩ := processBurst_from_pending startLine endLine rest
      (onSciModifiedUpdate true startLine endLine du n0).1 s1 s5
      (fun m hm => hgood m (by simp [hm]))
    refine ⟨by rw [processBurst_cons]; exact r1, ?_, ?_, ?_⟩
    · rw [processBurst_cons, r2, s2]
    · rw [processBurst_cons, r3, s3, ha]
      simp only [List.map_cons, List.sum_cons]
      omega
    · rw [processBurst_cons, r4, s4, hd]
      simp only [List.map_cons, List.sum_cons]
      omega

theorem C7_witness :
    ((onSciModifiedUpdate true 0 0
        (DelayedUpdateState.mk true 100 2 3 false)
        (SCNotification.mk SC_MOD_INSERTTEXT 40 5)).1.pending = true ∧
      (onSciModifiedUpdate true 0 0
        (DelayedUpdateState.mk true 100 2 3 false)
        (SCNotification.mk SC_MOD_INSERTTEXT 40 5)).1.changePos = min 100 40 ∧
      (onSciModifiedUpdate true 0 0
        (DelayedUpdateState.mk true 100 2 3 false)
        (SCNotification.mk SC_MOD_INSERTTEXT 40 5)).1.linesAdded =
        2 + insertDelta (SCNotification.mk SC_MOD_INSERTTEXT 40 5) ∧
      (onSciModifiedUpdate true 0 0
        (DelayedUpdateState.mk true 100 2 3 false)
        (SCNotification.mk SC_MOD_INSERTTEXT 40 5)).1.linesDeleted =
        3 + deleteDelta (SCNotification.mk SC_MOD_INSERTTEXT 40 5)) ∧
    ((processBurst true 0 0 (DelayedUpdateState.mk false 777 0 0 false)
        [SCNotification.mk SC_MOD_INSERTTEXT 50 2,
         SCNotification.mk SC_MOD_DELETETEXT 30 (-4)]).pending = true ∧
      (processBurst true 0 0 (DelayedUpdateState.mk false 777 0 0 false)
        [SCNotification.mk SC_MOD_INSERTTEXT 50 2,
         SCNotification.mk SC_MOD_DELETETEXT 30 (-4)]).changePos =
        [SCNotification.mk SC_MOD_DELETETEXT 30 (-4)].foldl
          (fun acc n => min acc n.position) 50 ∧
      (processBurst true 0 0 (DelayedUpdateState.mk false 777 0 0 false)
        [SCNotification.mk SC_MOD_INSERTTEXT 50 2,
         SCNotification.mk SC_MOD_DELETETEXT 30 (-4)]).linesAdded =
        ([SCNotification.mk SC_MOD_INSERTTEXT 50 2,
          SCNotification.mk SC_MOD_DELETETEXT 30 (-4)].map insertDelta).sum ∧
      (processBurst true 0 0 (DelayedUpdateState.mk false 777 0 0 false)
        [SCNotification.mk SC_MOD_INSERTTEXT 50 2,
         SCNotification.mk SC_MOD_DELETETEXT 30 (-4)]).linesDeleted =
        ([SCNotification.mk SC_MOD_INSERTTEXT 50 2,
          SCNotification.mk SC_MOD_DELETETEXT 30 (-4)].map deleteDelta).sum) :=
  ⟨C7_delayed_update_coalescing.1 0 0 (DelayedUpdateState.mk true 100 2 3 false)
    (SCNotification.mk SC_MOD_INSERTTEXT 40 5) rfl rfl (by decide),
   C7_delayed_update_coalescing.2 0 0 (DelayedUpdateState.mk false 777 0 0 false)
    (SCNotification.mk SC_MOD_INSERTTEXT 50 2)
    [SCNotification.mk SC_MOD_DELETETEXT 30 (-4)] rfl rfl rfl rfl (by decide)⟩

/-! ### Compare orchestration (`compare`, `addComparePair`, `clearComparePair`)

`compareFlow` embeds the control flow of `compare(selectionCompare)` as it
affects the session registry `compareList`.  Host interactions (selection
validity, the encoding prompt, the engine result, the match prompt) are
oracle fields of the input; the current buffer tracks the `activateBufferID`
calls the flow performs. -/

structure CPair where
  buff0 : Nat
  buff1 : Nat
deriving Repr, DecidableEq

def containsBuff (p : CPair) (b : Nat) : Bool := p.buff0 == b || p.buff1 == b

/-- The registry effect of `clearComparePair(buffId)` (and of
`closeComparePair` on the pair found by `getCompare`): erase the first pair
owning the buffer, if any. -/
def eraseFirstWith (registry : List CPair) (b : Nat) : List CPair :=
  match registry with
  | [] => []
  | p :: rest => if containsBuff p b then rest else p :: eraseFirstWith rest b

/-- The engine's verdict; every outcome other than match/mismatch (the
`default:` arm of the switch) is represented by `COMPARE_ERROR`. -/
inductive CompareResult where
  | COMPARE_MATCH
  | COMPARE_MISMATCH
  | COMPARE_ERROR
deriving Repr, DecidableEq

structure CompareFlowInput where
  registry : List CPair
  currentBuffId : Nat
  selectionCompare : Bool
  initOk : Bool
  newPair : CPair
  oldIsTemp : Bool
  newFileBuff : Nat
  selectionsValid : Bool
  encodingsCheck : Bool
  encodingOk : Bool
  result : CompareResult
  promptToClose : Bool
  userClosesFiles : Bool
deriving Repr, DecidableEq

structure CompareOutcome where
  registry : List CPair
  inserted : Bool
  compareRan : Bool
deriving Repr, DecidableEq

/-- The flow of `compare()`: the re-compare path never inserts; the
new-compare path inserts the pair (`addComparePair`) right after
`initNewCompare`, *before* any compare runs, and every subsequent failure
path (`compareList.erase`, `clearComparePair`, `closeComparePair`) removes
it.  `inserted` records that `addComparePair` ran; `compareRan` that
`runCompare` was reached. -/
def compareFlow (inp : CompareFlowInput) : CompareOutcome :=
  if (inp.registry.find? (fun p => containsBuff p inp.currentBuffId)).isSome then
    if inp.selectionCompare ∧ ¬ inp.selectionsValid then
      CompareOutcome.mk inp.registry false false
    else
      if inp.result = CompareResult.COMPARE_MISMATCH then
        CompareOutcome.mk inp.registry false true
      else
        CompareOutcome.mk (eraseFirstWith inp.registry inp.currentBuffId) false true
  else
    if ¬ inp.initOk then CompareOutcome.mk inp.registry false false
    else
      if ¬ inp.oldIsTemp ∧ inp.selectionCompare ∧ ¬ inp.selectionsValid then
        CompareOutcome.mk ((inp.registry ++ [inp.newPair]).eraseIdx inp.registry.length)
          true false
      else if inp.encodingsCheck ∧ ¬ inp.encodingOk then
        CompareOutcome.mk
          (eraseFirstWith (inp.registry ++ [inp.newPair])
            (if inp.oldIsTemp then inp.newFileBuff else inp.currentBuffId))
          true false
      else
        if inp.result = CompareResult.COMPARE_MISMATCH then
          CompareOutcome.mk (inp.registry ++ [inp.newPair]) true true
        else if inp.result = CompareResult.COMPARE_MATCH ∧
            ¬ inp.oldIsTemp ∧ inp.promptToClose ∧ inp.userClosesFiles then
          CompareOutcome.mk ((inp.registry ++ [inp.newPair]).eraseIdx inp.registry.length)
            true true
        else
          CompareOutcome.mk
            (eraseFirstWith (inp.registry ++ [inp.newPair])
              (if inp.oldIsTemp then inp.newFileBuff else inp.currentBuffId))
            true true

theorem eraseIdx_append_self (l : List CPair) (a : CPair) :
    (l ++ [a]).eraseIdx l.length = l := by
  induction l with
  | nil => rfl
  | cons x xs ih =>
    simp only [List.cons_append, List.length_cons, List.eraseIdx_cons_succ, ih]

theorem eraseFirstWith_append_fresh (l : List CPair) (a : CPair) (b : Nat)
    (hfresh : ∀ p ∈ l, containsBuff p b = false) (ha : containsBuff a b = true) :
    eraseFirstWith (l ++ [a]) b = l := by
  induction l with
  | nil => simp [eraseFirstWith, ha]
  | cons x xs ih =>
    simp only [List.cons_append, eraseFirstWith, List.append_eq]
    rw [if_neg (by simp [hfresh x (by simp)]), ih (fun p hp => hfresh p (by simp [hp]))]

/-- C8, counterexample to the claim as stated.  The claim says a pair is
inserted into the registry only after a successful first compare.  In the
code `addComparePair()` runs right after `initNewCompare()`, *before*
`runCompare`; with the encoding check enabled and the user declining the
mismatch warning, the pair is inserted and then removed without any compare
having run at all — so the insertion did not happen "after a successful first
compare", even though the registry ends unchanged. -/
theorem C8_cex :
    ((compareFlow (CompareFlowInput.mk [] 1 false true (CPair.mk 1 2) false 2 true
        true false CompareResult.COMPARE_MISMATCH false false)).inserted = true) ∧
    ((compareFlow (CompareFlowInput.mk [] 1 false true (CPair.mk 1 2) false 2 true
        true false CompareResult.COMPARE_MISMATCH false false)).compareRan = false) ∧
    ((compareFlow (CompareFlowInput.mk [] 1 false true (CPair.mk 1 2) false 2 true
        true false CompareResult.COMPARE_MISMATCH false false)).registry = []) := by
  decide

/-- C8 (amended): pair-registration atomicity holds as an end-state property.
In the new-compare path (neither buffer of the new pair is already
registered, the current buffer and the new-file buffer belong to the pair),
either the first compare ran and returned a mismatch — and then the registry
is exactly the old registry with the new pair appended — or the registry is
left exactly as it was: no failure path (invalid selection, declined encoding
warning, engine error or files-match outcome) leaves a half-initialized pair
registered.  The pair is, however, inserted *before* the compare runs and
removed again on failure (see the counterexample). -/
theorem C8_registration_atomicity (inp : CompareFlowInput)
    (hfresh : ∀ p ∈ inp.registry,
      containsBuff p inp.newPair.buff0 = false ∧ containsBuff p inp.newPair.buff1 = false)
    (hcur : inp.currentBuffId = inp.newPair.buff0 ∨ inp.currentBuffId = inp.newPair.buff1)
    (hnew : inp.newFileBuff = inp.newPair.buff0 ∨ inp.newFileBuff = inp.newPair.buff1) :
    ((compareFlow inp).registry = inp.registry ++ [inp.newPair] ∧
      inp.result = CompareResult.COMPARE_MISMATCH ∧
      (compareFlow inp).compareRan = true) ∨
    (compareFlow inp).registry = inp.registry := by
  have hfind : inp.registry.find? (fun p => containsBuff p inp.currentBuffId) = none := by
    rw [List.find?_eq_none]
    intro p hp
    rcases hcur with h | h <;> rw [h] <;> simp [(hfresh p hp).1, (hfresh p hp).2]
  have hcur1 : containsBuff inp.newPair
      (if inp.oldIsTemp then inp.newFileBuff else inp.currentBuffId) = true := by
    split
    · rcases hnew with h | h <;> rw [h] <;> simp [containsBuff]
    · rcases hcur with h | h <;> rw [h] <;> simp [containsBuff]
  have hfresh1 : ∀ p ∈ inp.registry,
      containsBuff p (if inp.oldIsTemp then inp.newFileBuff else inp.currentBuffId)
        = false := by
    intro p hp
    split
    · rcases hnew with h | h <;> rw [h]
      · exact (hfresh p hp).1
      · exact (hfresh p hp).2
    · rcases hcur with h | h <;> rw [h]
      · exact (hfresh p hp).1
      · exact (hfresh p hp).2
  unfold compareFlow
  rw [hfind]
  rw [if_neg (by simp)]
  by_cases hinit : ¬ inp.initOk
  · rw [if_pos hinit]
    right
    rfl
  · rw [if_neg hinit]
    by_cases hsel : ¬ inp.oldIsTemp ∧ inp.selectionCompare ∧ ¬ inp.selectionsValid
    · rw [if_pos hsel]
      right
      exact eraseIdx_append_self inp.registry inp.newPair
    · rw [if_neg hsel]
      by_cases henc : inp.encodingsCheck ∧ ¬ inp.encodingOk
      · rw [if_pos henc]
        right
        exact eraseFirstWith_append_fresh inp.registry inp.newPair _ hfresh1 hcur1
      · rw [if_neg henc]
        by_cases hres : inp.result = CompareResult.COMPARE_MISMATCH
        · rw [if_pos hres]
          left
          exact ⟨rfl, hres, rfl⟩
        · rw [if_neg hres]
          right
          split
          · simp only [eraseIdx_append_self]
          · simp only [eraseFirstWith_append_fresh inp.registry inp.newPair _ hfresh1 hcur1]

theorem C8_witness :
    ((compareFlow (CompareFlowInput.mk [CPair.mk 7 8] 1 false true (CPair.mk 1 2) false 2
          true false true CompareResult.COMPARE_MISMATCH false false)).registry =
        [CPair.mk 7 8] ++ [CPair.mk 1 2] ∧
      (CompareFlowInput.mk [CPair.mk 7 8] 1 false true (CPair.mk 1 2) false 2
          true false true CompareResult.COMPARE_MISMATCH false false).result =
        CompareResult.COMPARE_MISMATCH ∧
      (compareFlow (CompareFlowInput.mk [CPair.mk 7 8] 1 false true (CPair.mk 1 2) false 2
          true false true CompareResult.COMPARE_MISMATCH false false)).compareRan = true) ∨
    (compareFlow (CompareFlowInput.mk [CPair.mk 7 8] 1 false true (CPair.mk 1 2) false 2
        true false true CompareResult.COMPARE_MISMATCH false false)).registry =
      [CPair.mk 7 8] :=
  C8_registration_atomicity
    (CompareFlowInput.mk [CPair.mk 7 8] 1 false true (CPair.mk 1 2) false 2
      true false true CompareResult.COMPARE_MISMATCH false false)
    (by decide) (by decide) (by decide)

/-! ### Pair restoration (`ComparedPair::restoreFiles`) -/

/-- The position-relevant fields of a `ComparedFile`. -/
structure CFile where
  buffId : Nat
  originalViewId : Nat
  originalPos : Int
deriving Repr, DecidableEq

/-- The relative re-positioning prelude of `ComparedPair::restoreFiles`:
`viewOf` models `viewIdFromBuffId` and `posOf` models `posFromBuffId` (host
state at restore time).  The file still sitting in its original view is the
bias (anchor) file; when the bias file's home position was greater than the
moved file's home position, and the bias file's current position differs from
its home and has dropped strictly below the moved file's home, the moved
file's recorded home position is set to the bias file's current position. -/
def restoreFilesReposition (relativePos : Int) (viewOf : Nat → Nat) (posOf : Nat → Int)
    (f0 f1 : CFile) : CFile × CFile :=
  if relativePos ≠ 0 then
    if viewOf f0.buffId = f0.originalViewId then
      if f0.originalPos > f1.originalPos then
        if posOf f0.buffId ≠ f0.originalPos ∧ posOf f0.buffId < f1.originalPos then
          (f0, { f1 with originalPos := posOf f0.buffId })
        else (f0, f1)
      else (f0, f1)
    else
      if f1.originalPos > f0.originalPos then
        if posOf f1.buffId ≠ f1.originalPos ∧ posOf f1.buffId < f0.originalPos then
          ({ f0 with originalPos := posOf f1.buffId }, f1)
        else (f0, f1)
      else (f0, f1)
  else (f0, f1)

/-- The claim's description of the same step, written from its words: whenever
`relativePos` is non-zero and the anchor file now sits at a tab position
different from its recorded home position, shift the moved file's recorded
home position by the anchor's displacement. -/
def restoreFilesRepositionClaim (relativePos : Int) (viewOf : Nat → Nat) (posOf : Nat → Int)
    (f0 f1 : CFile) : CFile × CFile :=
  if relativePos ≠ 0 then
    if viewOf f0.buffId = f0.originalViewId then
      if posOf f0.buffId ≠ f0.originalPos then
        (f0, { f1 with originalPos := f1.originalPos + (posOf f0.buffId - f0.originalPos) })
      else (f0, f1)
    else
      if posOf f1.buffId ≠ f1.originalPos then
        ({ f0 with originalPos := f0.originalPos + (posOf f1.buffId - f1.originalPos) }, f1)
      else (f0, f1)
  else (f0, f1)

/-- C9, counterexample to the claim as stated.  Pair with `relativePos = 3`;
file 0 (the anchor, still in its original view 0) has home position 2, file 1
(moved) has home position 5; a buffer before the anchor was closed, so the
anchor now sits at position 1 ≠ 2.  The claim says the moved file's home
position is adjusted by the same shift (5 + (1 - 2) = 4); the code adjusts
nothing (its `biasFile->originalPos > movedFile->originalPos` guard fails) and
leaves 5. -/
theorem C9_cex :
    ((restoreFilesReposition 3 (fun _ => 0) (fun b => if b = 10 then 1 else 5)
        (CFile.mk 10 0 2) (CFile.mk 11 1 5)).2.originalPos = 5) ∧
    ((restoreFilesRepositionClaim 3 (fun _ => 0) (fun b => if b = 10 then 1 else 5)
        (CFile.mk 10 0 2) (CFile.mk 11 1 5)).2.originalPos = 4) ∧
    (5 : Int) ≠ 4 := by
  decide

/-- C9 (amended): with file 0 the anchor (still in its original view),
`restoreFiles` never modifies the anchor's record, and it updates the moved
file's recorded home position — setting it *equal to the anchor's current
position* — exactly when `relativePos` is non-zero, the anchor's home
position was greater than the moved file's home position, and the anchor's
current position differs from its home and lies strictly below the moved
file's home position; in every other case both records are left unchanged. -/
theorem C9_restoreFiles_reposition (relativePos : Int) (viewOf : Nat → Nat)
    (posOf : Nat → Int) (f0 f1 : CFile)
    (hanchor : viewOf f0.buffId = f0.originalViewId) :
    (restoreFilesReposition relativePos viewOf posOf f0 f1).1 = f0 ∧
    (restoreFilesReposition relativePos viewOf posOf f0 f1).2 =
      (if relativePos ≠ 0 ∧ f0.originalPos > f1.originalPos ∧
          posOf f0.buffId ≠ f0.originalPos ∧ posOf f0.buffId < f1.originalPos
       then { f1 with originalPos := posOf f0.buffId }
       else f1) := by
  unfold restoreFilesReposition
  rw [if_pos hanchor]
  by_cases h1 : relativePos ≠ 0
  · rw [if_pos h1]
    by_cases h2 : f0.originalPos > f1.originalPos
    · rw [if_pos h2]
      by_cases h3 : posOf f0.buffId ≠ f0.originalPos ∧ posOf f0.buffId < f1.originalPos
      · rw [if_pos h3, if_pos ⟨h1, h2, h3.1, h3.2⟩]
        exact ⟨rfl, rfl⟩
      · rw [if_neg h3, if_neg (by rintro ⟨-, -, k3, k4⟩; exact h3 ⟨k3, k4⟩)]
        exact ⟨rfl, rfl⟩
    · rw [if_neg h2, if_neg (by rintro ⟨-, k2, -⟩; exact h2 k2)]
      exact ⟨rfl, rfl⟩
  · rw [if_neg h1, if_neg (by rintro ⟨k1, -⟩; exact h1 k1)]
    exact ⟨rfl, rfl⟩

theorem C9_witness :
    ((restoreFilesReposition 3 (fun _ => 0) (fun b => if b = 10 then 1 else 9)
        (CFile.mk 10 0 7) (CFile.mk 11 1 4)).1 = CFile.mk 10 0 7) ∧
    ((restoreFilesReposition 3 (fun _ => 0) (fun b => if b = 10 then 1 else 9)
        (CFile.mk 10 0 7) (CFile.mk 11 1 4)).2 =
      (if (3 : Int) ≠ 0 ∧ (CFile.mk 10 0 7).originalPos > (CFile.mk 11 1 4).originalPos ∧
          (fun b => if b = 10 then (1 : Int) else 9) (CFile.mk 10 0 7).buffId ≠
            (CFile.mk 10 0 7).originalPos ∧
          (fun b => if b = 10 then (1 : Int) else 9) (CFile.mk 10 0 7).buffId <
            (CFile.mk 11 1 4).originalPos
       then { CFile.mk 11 1 4 with
                originalPos := (fun b => if b = 10 then (1 : Int) else 9) (CFile.mk 10 0 7).buffId }
       else CFile.mk 11 1 4)) :=
  C9_restoreFiles_reposition 3 (fun _ => 0) (fun b => if b = 10 then 1 else 9)
    (CFile.mk 10 0 7) (CFile.mk 11 1 4) (by decide)

end ComparePlus
